import Mathlib

/-!
Verification of the test-orchestration core of the `testr` VS Code
extension.  The TypeScript sources are shallowly embedded below: pure
functions become Lean functions on `String`/`List Char`, the
event-driven process handling becomes a function over an explicit event
trace, and the timer state of the execution manager becomes an explicit
state-passing step function.  JavaScript `number` values are modelled
as `Rat`, strings as Lean `String` (ASCII case conversion), and the
`string | undefined` idiom as `Option String`.
-/

namespace Testr

/-- Test status enumeration, from `src/types/index.ts`. -/
inductive TestStatus where
  | Pending
  | Running
  | Passed
  | Failed
  | Skipped
deriving DecidableEq, Repr

/-- Per-test result record, from `src/types/index.ts` (`TestExecutionResult`). -/
structure TestExecutionResult where
  testId : String
  status : TestStatus
  duration : Rat
  errorMessage : Option String
  errorStack : Option String
deriving DecidableEq, Repr

/-- Aggregate run result, from `src/types/index.ts` (`TestRunResult`). -/
structure TestRunResult where
  passed : Rat
  failed : Rat
  skipped : Rat
  duration : Rat
  results : List TestExecutionResult
deriving DecidableEq, Repr

/-- `PhpunitRunner.createEmptyResult` (the PHPUnit path builds every
field itself, so its records stay in this static shape). -/
def createEmptyResult : TestRunResult :=
  { passed := 0, failed := 0, skipped := 0, duration := 0, results := [] }

/-- `JestRunner.mapJestStatus`: the switch over the Jest-reported status
string.  The `default` arm of the TypeScript switch returns
`TestStatus.Pending`. -/
def mapJestStatus (status : String) : TestStatus :=
  if status = "passed" then .Passed
  else if status = "failed" then .Failed
  else if status = "pending" then .Skipped
  else if status = "skipped" then .Skipped
  else .Pending

/-! ## The "::" identifier codec

JavaScript `String.prototype.split` with a string separator performs a
leftmost, non-overlapping scan.  The separator used throughout the
sources is the two-character string `"::"`; we embed the split at the
character-list level. -/

/-- Leftmost non-overlapping split on the two-character separator `"::"`,
the semantics of `id.split('::')` in JavaScript. -/
def splitSepChars : List Char → List (List Char)
  | [] => [[]]
  | [c] => [[c]]
  | c :: c2 :: cs =>
    if c = ':' ∧ c2 = ':' then
      [] :: splitSepChars cs
    else
      (c :: (splitSepChars (c2 :: cs)).headD []) :: (splitSepChars (c2 :: cs)).tail

/-- Join with the separator `"::"`, the semantics of `parts.join('::')`. -/
def joinSepChars : List (List Char) → List Char
  | [] => []
  | [p] => p
  | p :: q :: rest => p ++ ':' :: ':' :: joinSepChars (q :: rest)

/-- `testId.split('::')` lifted to `String`. -/
def jsSplitSep (s : String) : List String :=
  (splitSepChars s.data).map (fun l => String.mk l)

/-- `parts.join('::')` lifted to `String`. -/
def jsJoinSep (parts : List String) : String :=
  String.mk (joinSepChars (parts.map String.data))

/-- Whether a character list contains the separator `"::"`. -/
def containsSep : List Char → Bool
  | [] => false
  | [_] => false
  | c :: c2 :: cs => (c = ':' && c2 = ':') || containsSep (c2 :: cs)

/-- Whether a character list ends with the character `':'`. -/
def endsColon : List Char → Bool
  | [] => false
  | [c] => c = ':'
  | _ :: c2 :: cs => endsColon (c2 :: cs)

/-- The sanitisation `filePath.replace(/[\\/:]/g, '_')` applied
character-wise (`JestRunner.buildTestId`, `JestParser.generateId`,
`PhpunitParser.generateId`). -/
def sanitizeFileChar (c : Char) : Char :=
  if c = '\\' ∨ c = '/' ∨ c = ':' then '_' else c

/-- `generateId` of both parsers and the `fileId` computation of
`JestRunner.buildTestId`. -/
def generateFileId (filePath : String) : String :=
  String.mk (filePath.data.map sanitizeFileChar)

/-- `JestRunner.buildTestId`. -/
def buildTestId (filePath : String) (ancestorTitles : List String) (title : String) : String :=
  jsJoinSep (generateFileId filePath :: (ancestorTitles ++ [title]))

/-- `TestExecutionManager.extractFilePathFromTestId`:
`testId.split('::')[0].replace(/_/g, '/')`. -/
def extractFilePathFromTestId (testId : String) : String :=
  String.mk (((jsSplitSep testId).headD "").data.map (fun c => if c = '_' then '/' else c))

/-! ## The test-item tree and `TestExecutionManager.findTestItem`

`vscode.TestItem` collections are embedded as finite rose trees carrying
the identifier; `items.forEach` visits children in order, and the TS
loop overwrites `foundItem` on every match, so the last matching sibling
wins. -/

/-- A discovered test item: its identifier and its children, mirroring
the `vscode.TestItem` data reachable from `testController.items`. -/
inductive TItem where
  | node (id : String) (children : List TItem)
deriving Repr

/-- Identifier of a test item. -/
def TItem.id : TItem → String
  | .node i _ => i

/-- Children of a test item. -/
def TItem.children : TItem → List TItem
  | .node _ cs => cs

/-- ASCII lower-casing of a string, the embedding of
`String.prototype.toLowerCase` on the identifiers at hand. -/
def lcStr (s : String) : String :=
  String.mk (s.data.map Char.toLower)

/-- The `currentItems.forEach` loop body of
`TestExecutionManager.findTestItem`: the last item whose lower-cased id
equals the lower-cased partial id or the lower-cased full id. -/
def lastMatch (normLevel normFull : String) (items : List TItem) : Option TItem :=
  items.foldl
    (fun acc it =>
      if lcStr it.id = normLevel ∨ lcStr it.id = normFull then some it else acc)
    none

/-- The `for (let i = 0; i < parts.length; i++)` loop of
`TestExecutionManager.findTestItem`.  `taken` holds the parts already
consumed (so the current partial id is `jsJoinSep (taken ++ [p])`),
`currentItems` the collection searched at this level, and `result` the
best match so far. -/
def findLoop (full : String) : List String → List String → List TItem → Option TItem → Option TItem
  | [], _, _, result => result
  | p :: rest, taken, currentItems, result =>
    match lastMatch (lcStr (jsJoinSep (taken ++ [p]))) (lcStr full) currentItems with
    | some it =>
      if it.children.isEmpty then some it
      else findLoop full rest (taken ++ [p]) it.children (some it)
    | none => findLoop full rest (taken ++ [p]) currentItems result

/-- `TestExecutionManager.findTestItem`, over the root collection
`rootItems` of the test controller. -/
def findTestItem (rootItems : List TItem) (testId : String) : Option TItem :=
  findLoop testId (jsSplitSep testId) [] rootItems none

/-- A recursive description of the situation in which the level-by-level
loop is guaranteed to succeed: at every level the `forEach` scan selects
the next chain node, inner chain nodes have children, and the final
chain node is returned.  (The chain for a discovery-built tree is the
ancestor chain of the target node, whose identifiers are the successive
`"::"`-prefixes of the target identifier up to letter case.) -/
def chainSelects (full : String) : List String → List String → List TItem → TItem → Prop
  | [], _, _, _ => False
  | [p], taken, items, target =>
    lastMatch (lcStr (jsJoinSep (taken ++ [p]))) (lcStr full) items = some target
  | p :: q :: rest, taken, items, target =>
    match lastMatch (lcStr (jsJoinSep (taken ++ [p]))) (lcStr full) items with
    | none => False
    | some c =>
      c.children ≠ [] ∧ chainSelects full (q :: rest) (taken ++ [p]) c.children target

/-! ## The execution orchestrator (`TestExecutionManager.runTests`)

The reconciliation loop is embedded as a pure function from the tree,
the run request and the adapter-reported `TestRunResult` to the
externally observable effects (per-file statistics records, the optional
cross-file aggregate record, and the list of items marked passed).  The
5-second passed-result-clear timer becomes explicit state: an optional
pending list of items to clear. -/

/-- `TestExecutionManager.extractTestNameFromId`. -/
def extractTestNameFromId (testId : String) : String :=
  String.intercalate " > " ((jsSplitSep testId).drop 1)

mutual

/-- `TestExecutionManager.collectItemsRecursively` together with the
loop over a collection (leaves are collected in order). -/
def collectItemsList : List TItem → List TItem
  | [] => []
  | t :: ts => collectItemsOne t ++ collectItemsList ts

/-- `TestExecutionManager.collectItemsRecursively` on one item: a leaf
is collected, an inner node contributes its descendants' leaves. -/
def collectItemsOne : TItem → List TItem
  | .node i [] => [.node i []]
  | .node _ (c :: cs) => collectItemsList (c :: cs)

end

/-- A run request: the optional explicit inclusion and exclusion lists of
`vscode.TestRunRequest`. -/
structure RunRequest where
  includeItems : Option (List TItem)
  excludeItems : Option (List TItem)

/-- `TestExecutionManager.collectTestItems`. -/
def collectTestItems (rootItems : List TItem) (request : RunRequest) : List TItem :=
  let items :=
    match request.includeItems with
    | some l => collectItemsList l
    | none => collectItemsList rootItems
  match request.excludeItems with
  | some ex => items.filter (fun it => !((ex.map TItem.id).contains it.id))
  | none => items

/-- `TestExecutionManager.isSingleTestSuiteRun`: an explicit nonempty
include list, and a single distinct lower-cased file path among the
collected items. -/
def isSingleTestSuiteRun (request : RunRequest) (testItems : List TItem) : Bool :=
  match request.includeItems with
  | none => false
  | some [] => false
  | some (_ :: _) =>
    ((testItems.map (fun it => lcStr (extractFilePathFromTestId it.id))).dedup).length == 1

/-- `TestExecutionManager.getTargetFilePath`. -/
def getTargetFilePath (testItems : List TItem) : Option String :=
  match testItems with
  | [] => none
  | it :: _ => some (extractFilePathFromTestId it.id)

/-- `TestExecutionManager.isMatchingFilePath`. -/
def isMatchingFilePath (path1 path2 : String) : Bool :=
  lcStr path1 == lcStr path2

/-- One insertion into the `resultsByFile` map (a JavaScript `Map`
preserves insertion order, hence the association-list embedding). -/
def insertByFile (acc : List (String × List TestExecutionResult))
    (fp : String) (r : TestExecutionResult) : List (String × List TestExecutionResult) :=
  match acc with
  | [] => [(fp, [r])]
  | (k, rs) :: rest =>
    if k = fp then (k, rs ++ [r]) :: rest else (k, rs) :: insertByFile rest fp r

/-- The `resultsByFile` grouping loop of `TestExecutionManager.runTests`. -/
def groupResultsByFile (results : List TestExecutionResult) :
    List (String × List TestExecutionResult) :=
  results.foldl (fun acc r => insertByFile acc (extractFilePathFromTestId r.testId) r) []

/-- Accumulator of the inner per-file result loop. -/
structure FileLoopAcc where
  filePassed : Nat
  fileFailed : Nat
  fileSkipped : Nat
  passedItems : List TItem

/-- One iteration of the `for (const testResult of fileResults)` loop:
unresolvable results are dropped, passed items are recorded, and the
switch's `default` arm reports the item as skipped. -/
def fileLoopStep (rootItems : List TItem) (acc : FileLoopAcc) (r : TestExecutionResult) :
    FileLoopAcc :=
  match findTestItem rootItems r.testId with
  | none => acc
  | some item =>
    match r.status with
    | .Passed =>
      { acc with filePassed := acc.filePassed + 1, passedItems := acc.passedItems ++ [item] }
    | .Failed => { acc with fileFailed := acc.fileFailed + 1 }
    | .Skipped => { acc with fileSkipped := acc.fileSkipped + 1 }
    | _ => { acc with fileSkipped := acc.fileSkipped + 1 }

/-- The whole per-file loop. -/
def processFile (rootItems : List TItem) (rs : List TestExecutionResult) : FileLoopAcc :=
  rs.foldl (fileLoopStep rootItems) ⟨0, 0, 0, []⟩

/-- The file groups that survive the single-suite target filter
(`if (isSingleSuiteRun && targetFilePath && !isMatching...) continue`;
a JavaScript empty-string target is falsy and disables the filter). -/
def processedGroups (rootItems : List TItem) (request : RunRequest) (result : TestRunResult) :
    List (String × List TestExecutionResult) :=
  let testItems := collectTestItems rootItems request
  let isSingle := isSingleTestSuiteRun request testItems
  let target := if isSingle then getTargetFilePath testItems else none
  (groupResultsByFile result.results).filter (fun g =>
    !(isSingle &&
      (match target with
       | some t => !(t == "") && !(isMatchingFilePath g.1 t)
       | none => false)))

/-- A `logFileStats` record. -/
structure FileStats where
  filePath : String
  total : Nat
  passed : Nat
  failed : Nat
  skipped : Nat
deriving DecidableEq, Repr

/-- The externally observable effects of one `runTests` invocation. -/
structure RunEffects where
  fileStats : List FileStats
  overallStats : Option (Rat × Rat × Rat × Rat × Rat)
  passedItems : List TItem
deriving Repr

/-- `TestExecutionManager.runTests` reduced to its observable effects:
per-file statistics for each processed group, the aggregate statistics
record exactly when this is not a single-suite run, and the items marked
passed (in processing order). -/
def runTestsEffects (rootItems : List TItem) (request : RunRequest) (result : TestRunResult) :
    RunEffects :=
  let testItems := collectTestItems rootItems request
  let isSingle := isSingleTestSuiteRun request testItems
  let groups := processedGroups rootItems request result
  let accs := groups.map (fun g => processFile rootItems g.2)
  { fileStats :=
      (groups.zip accs).map (fun ga =>
        { filePath := ga.1.1
          total := ga.2.filePassed + ga.2.fileFailed + ga.2.fileSkipped
          passed := ga.2.filePassed
          failed := ga.2.fileFailed
          skipped := ga.2.fileSkipped })
    overallStats :=
      if isSingle then none
      else some (result.passed + result.failed + result.skipped,
        result.passed, result.failed, result.skipped, result.duration)
    passedItems := (accs.map FileLoopAcc.passedItems).flatten }

/-- The timer state of the manager: the pending passed-result clear. -/
structure ManagerState where
  clearResultsTimeout : Option (List TItem)

/-- One `runTests` call as a state transition: the entry of `runTests`
clears any pending timeout from the previous run, and its exit schedules
a clear of the passed items exactly when there are any. -/
def runTestsStep (_s : ManagerState) (rootItems : List TItem) (request : RunRequest)
    (result : TestRunResult) : ManagerState × RunEffects :=
  let effects := runTestsEffects rootItems request result
  (⟨if effects.passedItems.isEmpty then none else some effects.passedItems⟩, effects)

/-- The timer firing after the fixed delay: `invalidatePassedItems`
resets exactly the scheduled items. -/
def timerFire (s : ManagerState) : ManagerState × List TItem :=
  match s.clearResultsTimeout with
  | none => (⟨none⟩, [])
  | some items => (⟨none⟩, items)

/-- Per-result contribution to the passed-item list. -/
def passedHit (rootItems : List TItem) (r : TestExecutionResult) : Option TItem :=
  match findTestItem rootItems r.testId with
  | none => none
  | some item => if r.status = .Passed then some item else none

/-! ## `JestRunner`: name patterns, CLI arguments, executable resolution -/

/-- `JestRunner.escapeRegexPattern` applied to one character:
`replace(/[.*+?^$\x7b\x7d()|[\]\\]/g, '\\$&')`. -/
def escapeRegexChar (c : Char) : List Char :=
  if c = '.' ∨ c = '*' ∨ c = '+' ∨ c = '?' ∨ c = '^' ∨ c = '$' ∨ c = '\x7b' ∨ c = '\x7d'
      ∨ c = '(' ∨ c = ')' ∨ c = '|' ∨ c = '[' ∨ c = ']' ∨ c = '\\' then
    ['\\', c]
  else [c]

/-- `JestRunner.escapeRegexPattern` (also `PhpunitRunner.escapeRegex`). -/
def escapeRegexPattern (s : String) : String :=
  String.mk (s.data.flatMap escapeRegexChar)

/-- The per-identifier body of `JestRunner.buildTestPatterns` (the
spec's `toNamePattern` projection): drop the file token and join the
remaining segments with one space, escaping regex metacharacters; a
file-only identifier yields the empty string. -/
def toNamePattern (id : String) : String :=
  let parts := jsSplitSep id
  if parts.length > 1 then
    escapeRegexPattern (String.intercalate " " (parts.drop 1))
  else ""

/-- `JestRunner.buildTestPatterns`. -/
def buildTestPatterns (testIds : List String) : List String :=
  match testIds with
  | [] => []
  | _ => (testIds.map toNamePattern).filter (fun p => p.length > 0)

/-- `JestRunner.buildJestArgs`. -/
def buildJestArgs (testPatterns : List String) : List String :=
  let args := ["--json", "--testLocationInResults"]
  if testPatterns.length > 0 then
    args ++ ["--testNamePattern", "\"" ++ String.intercalate "|" testPatterns ++ "\""]
  else args

/-- `JEST_BIN_PATHS` from `src/config/jest-config.ts`. -/
def JEST_BIN_PATHS_unix : String := "node_modules/.bin/jest"

/-- `JEST_BIN_PATHS.windows`. -/
def JEST_BIN_PATHS_windows : String := "node_modules/.bin/jest.cmd"

/-- `JEST_BIN_PATHS.fallback`. -/
def JEST_BIN_PATHS_fallback : String := "npx jest"

/-- Node `path.join` restricted to the use here: the two segments joined
by `/` (the fixed relative suffixes need no normalisation). -/
def pathJoin (a b : String) : String :=
  if a = "" then b else a ++ "/" ++ b

/-- `JestRunner.findJestExecutable`; the `vscode.workspace.fs.stat`
probe is a parameter (`stat p = true` iff the stat call succeeds). -/
def findJestExecutable (stat : String → Bool) (workspacePath : String) : Option String :=
  let localJest := pathJoin workspacePath JEST_BIN_PATHS_unix
  let localJestCmd := pathJoin workspacePath JEST_BIN_PATHS_windows
  if stat localJestCmd then some localJestCmd
  else if stat localJest then some localJest
  else some JEST_BIN_PATHS_fallback

/-- The `if (!jestPath)` guard of `JestRunner.runTests`: a JavaScript
falsy test on the resolved executable (undefined or the empty string). -/
def jestExecutableMissing (stat : String → Bool) (workspacePath : String) : Bool :=
  match findJestExecutable stat workspacePath with
  | none => true
  | some p => p == ""

/-! ## A JSON value parser, embedding `JSON.parse`

`JestRunner.parseJestOutput` calls `JSON.parse` on the brace-delimited
slice of stdout.  The parser below implements the JSON grammar (strict
numbers, string escapes, arrays, objects); numbers are `Rat`. -/

/-- JSON values. -/
inductive JsonVal where
  | null
  | bool (b : Bool)
  | num (q : Rat)
  | str (s : String)
  | arr (elems : List JsonVal)
  | obj (fields : List (String × JsonVal))
deriving Repr

/-- JSON insignificant whitespace. -/
def isJsonWs (c : Char) : Bool :=
  c = ' ' || c = '\t' || c = '\n' || c = '\r'

/-- Skip insignificant whitespace. -/
def skipWs (l : List Char) : List Char :=
  l.dropWhile isJsonWs

/-- Decimal digit test. -/
def isDigitChar (c : Char) : Bool :=
  '0' ≤ c && c ≤ '9'

/-- Value of a decimal digit run. -/
def digitsToNat (l : List Char) : Nat :=
  l.foldl (fun n c => n * 10 + (c.toNat - '0'.toNat)) 0

/-- Hexadecimal digit value. -/
def hexVal (c : Char) : Option Nat :=
  if '0' ≤ c ∧ c ≤ '9' then some (c.toNat - '0'.toNat)
  else if 'a' ≤ c ∧ c ≤ 'f' then some (c.toNat - 'a'.toNat + 10)
  else if 'A' ≤ c ∧ c ≤ 'F' then some (c.toNat - 'A'.toNat + 10)
  else none

/-- Parse the body of a JSON string literal (the opening quote already
consumed), handling the JSON escape sequences. -/
def parseStringBody : List Char → Option (List Char × List Char)
  | [] => none
  | '"' :: rest => some ([], rest)
  | '\\' :: e :: rest =>
    match e with
    | '"' => (parseStringBody rest).map (fun p => ('"' :: p.1, p.2))
    | '\\' => (parseStringBody rest).map (fun p => ('\\' :: p.1, p.2))
    | '/' => (parseStringBody rest).map (fun p => ('/' :: p.1, p.2))
    | 'b' => (parseStringBody rest).map (fun p => ('\x08' :: p.1, p.2))
    | 'f' => (parseStringBody rest).map (fun p => ('\x0c' :: p.1, p.2))
    | 'n' => (parseStringBody rest).map (fun p => ('\n' :: p.1, p.2))
    | 'r' => (parseStringBody rest).map (fun p => ('\r' :: p.1, p.2))
    | 't' => (parseStringBody rest).map (fun p => ('\t' :: p.1, p.2))
    | 'u' =>
      match rest with
      | h1 :: h2 :: h3 :: h4 :: rest' =>
        match hexVal h1, hexVal h2, hexVal h3, hexVal h4 with
        | some v1, some v2, some v3, some v4 =>
          (parseStringBody rest').map (fun p =>
            (Char.ofNat (((v1 * 16 + v2) * 16 + v3) * 16 + v4) :: p.1, p.2))
        | _, _, _, _ => none
      | _ => none
    | _ => none
  | c :: rest =>
    if c.toNat < 32 then none
    else (parseStringBody rest).map (fun p => (c :: p.1, p.2))

/-- Take a nonempty run of decimal digits. -/
def takeDigits1 (l : List Char) : Option (List Char × List Char) :=
  let digits := l.takeWhile isDigitChar
  if digits.isEmpty then none else some (digits, l.drop digits.length)

/-- Parse a JSON number (strict grammar: no leading zeros, mandatory
digits after `.` and the exponent marker). -/
def parseNumber (l : List Char) : Option (Rat × List Char) :=
  let (sign, l1) : Rat × List Char :=
    match l with
    | '-' :: rest => (-1, rest)
    | _ => (1, l)
  let intPart : Option (List Char × List Char) :=
    match l1 with
    | '0' :: rest =>
      match rest with
      | c :: _ => if isDigitChar c then none else some (['0'], rest)
      | [] => some (['0'], [])
    | _ => takeDigits1 l1
  match intPart with
  | none => none
  | some (ds, l2) =>
    let fracPart : Option (List Char × List Char) :=
      match l2 with
      | '.' :: rest => takeDigits1 rest
      | _ => some ([], l2)
    match fracPart with
    | none => none
    | some (fs, l3) =>
      let expPart : Option (Rat × List Char) :=
        match l3 with
        | 'e' :: rest | 'E' :: rest =>
          match rest with
          | '+' :: rest' => (takeDigits1 rest').map (fun p => (((10 : Rat) ^ digitsToNat p.1), p.2))
          | '-' :: rest' => (takeDigits1 rest').map (fun p => ((((10 : Rat) ^ digitsToNat p.1)⁻¹), p.2))
          | _ => (takeDigits1 rest).map (fun p => (((10 : Rat) ^ digitsToNat p.1), p.2))
        | _ => some (1, l3)
      match expPart with
      | none => none
      | some (scale, l4) =>
        let mant : Rat := (digitsToNat (ds ++ fs) : Rat) / (10 : Rat) ^ fs.length
        some (sign * mant * scale, l4)

mutual

/-- Parse one JSON value (whitespace already skipped); `fuel` bounds the
nesting depth by the input length. -/
def parseValue : Nat → List Char → Option (JsonVal × List Char)
  | 0, _ => none
  | _ + 1, [] => none
  | fuel + 1, c :: rest =>
    match c with
    | 'n' =>
      match rest with
      | 'u' :: 'l' :: 'l' :: r => some (.null, r)
      | _ => none
    | 't' =>
      match rest with
      | 'r' :: 'u' :: 'e' :: r => some (.bool true, r)
      | _ => none
    | 'f' =>
      match rest with
      | 'a' :: 'l' :: 's' :: 'e' :: r => some (.bool false, r)
      | _ => none
    | '"' => (parseStringBody rest).map (fun p => (.str (String.mk p.1), p.2))
    | '[' =>
      match skipWs rest with
      | ']' :: r => some (.arr [], r)
      | r => (parseArrayItems fuel r).map (fun p => (.arr p.1, p.2))
    | '\x7b' =>
      match skipWs rest with
      | '\x7d' :: r => some (.obj [], r)
      | r => (parseObjItems fuel r).map (fun p => (.obj p.1, p.2))
    | _ =>
      if c = '-' || isDigitChar c then
        (parseNumber (c :: rest)).map (fun p => (.num p.1, p.2))
      else none

/-- Parse the items of a nonempty JSON array (whitespace skipped, first
item at the head). -/
def parseArrayItems : Nat → List Char → Option (List JsonVal × List Char)
  | 0, _ => none
  | fuel + 1, l =>
    match parseValue fuel l with
    | none => none
    | some (v, rest) =>
      match skipWs rest with
      | ',' :: r => (parseArrayItems fuel (skipWs r)).map (fun p => (v :: p.1, p.2))
      | ']' :: r => some ([v], r)
      | _ => none

/-- Parse the members of a nonempty JSON object. -/
def parseObjItems : Nat → List Char → Option (List (String × JsonVal) × List Char)
  | 0, _ => none
  | fuel + 1, l =>
    match l with
    | '"' :: rest =>
      match parseStringBody rest with
      | none => none
      | some (key, r1) =>
        match skipWs r1 with
        | ':' :: r2 =>
          match parseValue fuel (skipWs r2) with
          | none => none
          | some (v, r3) =>
            match skipWs r3 with
            | ',' :: r4 => (parseObjItems fuel (skipWs r4)).map
                (fun p => ((String.mk key, v) :: p.1, p.2))
            | '\x7d' :: r4 => some ([(String.mk key, v)], r4)
            | _ => none
        | _ => none
    | _ => none

end

/-- `JSON.parse`: parse a complete JSON document. -/
def jsonParse (s : String) : Option JsonVal :=
  match parseValue (s.data.length + 1) (skipWs s.data) with
  | none => none
  | some (v, rest) => if (skipWs rest).isEmpty then some v else none

/-- JavaScript member access on a parsed JSON value (`JSON.parse` keeps
the last of duplicate keys). -/
def jsonGet (v : JsonVal) (key : String) : Option JsonVal :=
  match v with
  | .obj fields => (fields.reverse.find? (fun f => f.1 == key)).map Prod.snd
  | _ => none

/-! ## `JestRunner.parseJestOutput` and the process-event model

The body of `parseJestOutput` runs inside a `try`: any `TypeError`
raised while walking the parsed JSON lands in the `catch`, which
returns the empty result.  JavaScript walks the value dynamically: the
count fields are copied verbatim whether or not they are present or
numeric, `join` stringifies arbitrary elements, and spreading a string
yields its characters.  The model therefore works on raw `JsonVal`s and
`Option JsonVal` (`none` standing for `undefined`), and marks a shape
on which the body throws with an outer `none`.  Which of several
throwing subterms fires first never matters: every throw reaches the
same catch. -/

/-- JavaScript property access `base.key`: the outer `none` when the
access itself throws (`base` is `null`); otherwise the property value,
`undefined` (`some none`) on primitives, arrays and objects lacking the
key (none of the keys read here is an array index or `length`). -/
def jsGetProp : JsonVal → String → Option (Option JsonVal)
  | .null, _ => none
  | .obj fields, key => some (jsonGet (.obj fields) key)
  | _, _ => some none

/-- Property access on a base already known not to be `null`. -/
def jsGetPropD (v : JsonVal) (key : String) : Option JsonVal :=
  (jsGetProp v key).getD none

/-- The fractional digits of `rem / den` (`fuel ≥` the count of digits
of every terminating expansion, and only terminating expansions arise
from parsed JSON numbers). -/
def fracDigits : Nat → Nat → Nat → List Char
  | 0, _, _ => []
  | fuel + 1, rem, den =>
    if rem = 0 then []
    else Char.ofNat ('0'.toNat + rem * 10 / den) :: fracDigits fuel (rem * 10 % den) den

/-- JavaScript `ToString` on a number, in the plain decimal range: sign,
integer digits, and the terminating fractional digits if any. -/
def jsNumToString (q : Rat) : String :=
  let n := q.num.natAbs
  let d := q.den
  let frac := fracDigits d (n % d) d
  (if q.num < 0 then "-" else "") ++ toString (n / d)
    ++ (if frac.isEmpty then "" else "." ++ String.mk frac)

mutual

/-- JavaScript `ToString` on a JSON value: `Array.prototype.toString`
is `join(",")`, and a plain object prints as `[object Object]`. -/
def jsToString : JsonVal → String
  | .null => "null"
  | .bool true => "true"
  | .bool false => "false"
  | .num q => jsNumToString q
  | .str s => s
  | .arr xs => String.intercalate "," (jsArrElemStrs xs)
  | .obj _ => "[object Object]"

/-- The strings array elements contribute under `Array.prototype.join`
(`null` contributes the empty string, not `"null"`). -/
def jsArrElemStrs : List JsonVal → List String
  | [] => []
  | .null :: xs => "" :: jsArrElemStrs xs
  | x :: xs => jsToString x :: jsArrElemStrs xs

end

/-- One element's contribution under `join` when the element may also be
`undefined` (which, like `null`, contributes the empty string). -/
def jsJoinElem : Option JsonVal → String
  | none => ""
  | some .null => ""
  | some v => jsToString v

/-- The spread `[...value]`: an array spreads to its elements, a string
to its characters; any other value makes the spread throw. -/
def jsSpreadElems : JsonVal → Option (List JsonVal)
  | .arr xs => some xs
  | .str s => some (s.data.map (fun c => .str (String.mk [c])))
  | _ => none

/-- `for … of value` iterates the same values the spread produces;
`undefined` (a missing field) throws like any non-iterable. -/
def jsIterate : Option JsonVal → Option (List JsonVal)
  | none => none
  | some v => jsSpreadElems v

/-- JavaScript `ToNumber` on the non-string primitives that can reach
the numeric branch of `+` (strings take the concatenation branch). -/
def jsToNum : JsonVal → Rat
  | .null => 0
  | .bool b => if b then 1 else 0
  | .num q => q
  | _ => 0

/-- JavaScript `+`: `ToPrimitive` both sides (arrays and objects via
their `toString`), concatenate if either side is then a string,
otherwise add numerically. -/
def jsAdd (a b : JsonVal) : JsonVal :=
  let toPrim : JsonVal → JsonVal := fun v =>
    match v with
    | .arr xs => .str (String.intercalate "," (jsArrElemStrs xs))
    | .obj _ => .str "[object Object]"
    | v => v
  match toPrim a, toPrim b with
  | .str sa, pb => .str (sa ++ jsToString pb)
  | pa, .str sb => .str (jsToString pa ++ sb)
  | pa, pb => .num (jsToNum pa + jsToNum pb)

/-- `JestRunner.buildTestId` as invoked from the result loop on raw JSON
values: the suite name (a string, or `replace` throws — checked by the
caller) is sanitised into the file token, then the spread ancestor
titles and the raw title join with `"::"`, non-string elements
stringified by `join`. -/
def buildTestIdDyn (filePath : String) (ancElems : List JsonVal)
    (title : Option JsonVal) : String :=
  jsJoinSep (generateFileId filePath
    :: (ancElems.map (fun a => jsJoinElem (some a)) ++ [jsJoinElem title]))

/-- `mapJestStatus` on a raw field: the switch compares with `===`, so
only the exact status strings match and every other value (including a
missing one) falls to the default. -/
def mapJestStatusDyn : Option JsonVal → TestStatus
  | some (.str s) => mapJestStatus s
  | _ => .Pending

/-- `testResult.duration ?? 0`: `null` and `undefined` coalesce to 0,
every other value is kept verbatim. -/
def jsCoalesceZero : Option JsonVal → JsonVal
  | none => .num 0
  | some .null => .num 0
  | some v => v

/-- One result record as pushed by the loop: `duration` and
`errorMessage` are copied verbatim (`errorMessage` is `undefined` when
`failureMessages` is empty), `errorStack` is the `join`-built string. -/
structure JestDynExecResult where
  testId : String
  status : TestStatus
  duration : JsonVal
  errorMessage : Option JsonVal
  errorStack : String
deriving Repr

/-- The record `parseJestOutput` resolves with: the three counts are
copied verbatim from the parsed JSON (`undefined` when missing). -/
structure JestDynRunResult where
  passed : Option JsonVal
  failed : Option JsonVal
  skipped : Option JsonVal
  duration : JsonVal
  results : List JestDynExecResult
deriving Repr

/-- `JestRunner.createEmptyResult` as the dynamic record (all counts the
number 0). -/
def createEmptyDynResult : JestDynRunResult :=
  { passed := some (.num 0), failed := some (.num 0), skipped := some (.num 0)
    duration := .num 0, results := [] }

/-- One element of `assertionResults`: `none` marks a shape on which the
loop body throws — `testResult` itself `null`, a non-string suite name
reaching `replace`, a non-spreadable `ancestorTitles`, or a
`failureMessages` that is not an array (`[0]` throws on `null` and
`undefined`, `.join` on everything else non-array). -/
def interpAssertionDyn (name : Option JsonVal) (tr : JsonVal) :
    Option JestDynExecResult :=
  match jsGetProp tr "ancestorTitles" with
  | none => none
  | some ancv =>
    match name with
    | some (.str nm) =>
      match jsIterate ancv with
      | none => none
      | some ancElems =>
        match jsGetPropD tr "failureMessages" with
        | some (.arr fm) =>
          some { testId := buildTestIdDyn nm ancElems (jsGetPropD tr "title")
                 status := mapJestStatusDyn (jsGetPropD tr "status")
                 duration := jsCoalesceZero (jsGetPropD tr "duration")
                 errorMessage := fm.head?
                 errorStack := String.intercalate "\n" (jsArrElemStrs fm) }
        | _ => none
    | _ => none

/-- One element of `testResults`: accessing its properties throws on
`null`, `for … of assertionResults` then needs an iterable; an empty
iteration pushes nothing and never evaluates the suite name. -/
def interpSuiteDyn (sv : JsonVal) : Option (List JestDynExecResult) :=
  match jsGetProp sv "assertionResults" with
  | none => none
  | some av =>
    match jsIterate av with
    | none => none
    | some items => items.mapM (interpAssertionDyn (jsGetPropD sv "name"))

/-- The try body of `parseJestOutput` after a successful `JSON.parse`
(`none` = a throw reaching the catch): iterate `testResults`, collect
the per-assertion records in order, and assemble the returned record
with the counts copied verbatim and the duration the `+`-fold of the
per-result durations. -/
def jestDynBody (v : JsonVal) : Option JestDynRunResult :=
  match jsGetProp v "testResults" with
  | none => none
  | some tv =>
    match jsIterate tv with
    | none => none
    | some suites =>
      match suites.mapM interpSuiteDyn with
      | none => none
      | some resultss =>
        let results := resultss.flatten
        some { passed := jsonGet v "numPassedTests"
               failed := jsonGet v "numFailedTests"
               skipped := jsonGet v "numPendingTests"
               duration := results.foldl (fun s r => jsAdd s r.duration) (.num 0)
               results := results }

/-- The greedy brace extraction `stdout.match(/\x7b[\s\S]*\x7d/)`:
from the first opening brace through the last closing brace after it. -/
def extractJsonSlice (stdout : String) : Option String :=
  let cs := stdout.data
  match cs.findIdx? (fun c => c == '\x7b') with
  | none => none
  | some i =>
    match (cs.reverse.findIdx? (fun c => c == '\x7d')).map (fun k => cs.length - 1 - k) with
    | none => none
    | some j => if i < j then some (String.mk ((cs.drop i).take (j - i + 1))) else none

/-- The `JSON.parse`-and-walk stage on the brace-delimited slice: a
parse failure or a throw in the loop degrades to the empty result. -/
def jestResultOfSlice (slice : String) : JestDynRunResult :=
  match jsonParse slice with
  | none => createEmptyDynResult
  | some v =>
    match jestDynBody v with
    | none => createEmptyDynResult
    | some out => out

/-- `JestRunner.parseJestOutput`: no brace-delimited slice, a JSON
parse failure, or a shape on which the result loop throws all degrade
to the empty result; every other output resolves with the walked
record. -/
def parseJestOutput (stdout : String) (_testIds : List String) : JestDynRunResult :=
  match extractJsonSlice stdout with
  | none => createEmptyDynResult
  | some slice => jestResultOfSlice slice

/-- Events observable by the promise body of a runner's `runTests`
after spawning, in occurrence order. -/
inductive ProcEvent where
  | out (s : String)
  | errOut (s : String)
  | closed
  | spawnError
  | cancelled
deriving DecidableEq, Repr

/-- The promise body of `JestRunner.runTests` after the spawn: data
events accumulate stdout; the first of close / error / cancellation
resolves the promise (`none` = the promise is still pending).  The
boolean records whether `process.kill()` was requested. -/
def jestRunLoop (testIds : List String) :
    List ProcEvent → String → Option (JestDynRunResult × Bool)
  | [], _ => none
  | .out s :: rest, acc => jestRunLoop testIds rest (acc ++ s)
  | .errOut _ :: rest, acc => jestRunLoop testIds rest acc
  | .closed :: _, acc => some (parseJestOutput acc testIds, false)
  | .spawnError :: _, _ => some (createEmptyDynResult, false)
  | .cancelled :: _, _ => some (createEmptyDynResult, true)

/-- `JestRunner.runTests`: executable resolution guard, then the spawned
process's event handling. -/
def jestRunTests (stat : String → Bool) (workspacePath : String) (testIds : List String)
    (events : List ProcEvent) : Option (JestDynRunResult × Bool) :=
  if jestExecutableMissing stat workspacePath then some (createEmptyDynResult, false)
  else jestRunLoop testIds events ""

/-! ## `PhpunitRunner`: console-output scanning

The regular expressions of `PhpunitRunner` are hand-compiled to
character-list scanners.  The test name interpolated into the patterns
is regex-escaped in the source (`escapeRegex`), so it matches literally;
the `i` flag makes every comparison ASCII case-insensitive, and a bare
`.` never crosses a line terminator. -/

/-- Case-insensitive character comparison (ASCII `toLowerCase`). -/
def ciEq (a b : Char) : Bool :=
  a.toLower == b.toLower

/-- Case-insensitive prefix test. -/
def isPrefixCI : List Char → List Char → Bool
  | [], _ => true
  | _ :: _, [] => false
  | a :: xs, b :: ys => ciEq a b && isPrefixCI xs ys

/-- Case-insensitive substring test. -/
def containsCI (pat : List Char) : List Char → Bool
  | [] => isPrefixCI pat []
  | c :: cs => isPrefixCI pat (c :: cs) || containsCI pat cs

/-- Case-sensitive substring test (`String.prototype.includes`). -/
def containsStr (pat : List Char) : List Char → Bool
  | [] => pat.isEmpty
  | c :: cs => pat.isPrefixOf (c :: cs) || containsStr pat cs

/-- JavaScript regex line terminators (which a bare `.` cannot match). -/
def isLineTerm (c : Char) : Bool :=
  c = '\n' || c = '\r' || c = '\u2028' || c = '\u2029'

/-- JavaScript regex `\s`, restricted to its ASCII members. -/
def isJsWs (c : Char) : Bool :=
  c = ' ' || c = '\t' || c = '\n' || c = '\r' || c = '\x0b' || c = '\x0c'

/-- `.*b` matching: `b` is found after consuming any run of
non-line-terminator characters. -/
def dotStarThenCI (b : List Char) : List Char → Bool
  | [] => isPrefixCI b []
  | c :: cs => isPrefixCI b (c :: cs) || (!isLineTerm c && dotStarThenCI b cs)

/-- `a.*b` matching somewhere in the text (case-insensitive, `a` and `b`
literal). -/
def seqCI (a b : List Char) : List Char → Bool
  | [] => isPrefixCI a [] && dotStarThenCI b []
  | c :: cs =>
    (isPrefixCI a (c :: cs) && dotStarThenCI b (List.drop a.length (c :: cs)))
      || seqCI a b cs

/-- The fail pattern of `PhpunitRunner.extractTestResults`:
`✗|✘|FAIL.*name|name.*FAIL` with the `i` flag. -/
def phpunitFailMatch (output name : List Char) : Bool :=
  output.contains '✗' || output.contains '✘'
    || seqCI "FAIL".data name output || seqCI name "FAIL".data output

/-- The pass pattern: `✓|✔|PASS.*name|name.*OK` with the `i` flag. -/
def phpunitPassMatch (output name : List Char) : Bool :=
  output.contains '✓' || output.contains '✔'
    || seqCI "PASS".data name output || seqCI name "OK".data output

/-- Length of the first alternative of
`(Expected|Assert|Error|Exception)` matching at the head (the engine
tries the alternatives in written order). -/
def kwAt (l : List Char) : Option Nat :=
  if isPrefixCI "Expected".data l then some 8
  else if isPrefixCI "Assert".data l then some 6
  else if isPrefixCI "Error".data l then some 5
  else if isPrefixCI "Exception".data l then some 9
  else none

/-- First keyword occurrence: index and matched length. -/
def findKw : List Char → Option (Nat × Nat)
  | [] => none
  | c :: cs =>
    match kwAt (c :: cs) with
    | some len => some (0, len)
    | none => (findKw cs).map (fun p => (p.1 + 1, p.2))

/-- First position satisfying the lookahead `(?=\n\n|$)`. -/
def findStop : List Char → Nat
  | [] => 0
  | '\n' :: '\n' :: _ => 0
  | _ :: cs => findStop cs + 1

/-- First case-insensitive occurrence of a literal. -/
def firstIdxCI (pat : List Char) : List Char → Option Nat
  | [] => if isPrefixCI pat [] then some 0 else none
  | c :: cs =>
    if isPrefixCI pat (c :: cs) then some 0 else (firstIdxCI pat cs).map (· + 1)

/-- The failure-message extraction
`name[\s\S]*?(Expected|Assert|Error|Exception)[\s\S]*?(?=\n\n|$)`:
leftmost name occurrence, lazy keyword, lazy stop at a blank line or the
end of input. -/
def phpunitErrorSlice (output name : List Char) : Option (List Char) :=
  match firstIdxCI name output with
  | none => none
  | some s =>
    let afterName := output.drop (s + name.length)
    match findKw afterName with
    | none => none
    | some kl =>
      let afterKw := afterName.drop (kl.1 + kl.2)
      some ((output.drop s).take (name.length + kl.1 + kl.2 + findStop afterKw))

/-- `PhpunitRunner.extractTestResults`: one record per requested id,
status decided by the glyph/pattern scan, duration always 0. -/
def extractTestResults (output : String) (testIds : List String) : List TestExecutionResult :=
  testIds.map (fun testId =>
    let parts := jsSplitSep testId
    let testName := (parts.getLast?).getD ""
    let nm := testName.data
    let out := output.data
    if phpunitFailMatch out nm then
      let msg := (phpunitErrorSlice out nm).map (fun sl => String.mk (sl.take 500))
      { testId := testId, status := .Failed, duration := 0
        errorMessage := msg, errorStack := msg }
    else if !phpunitPassMatch out nm && containsStr "FAILURES".data out then
      { testId := testId, status := .Failed, duration := 0
        errorMessage := none, errorStack := none }
    else
      { testId := testId, status := .Passed, duration := 0
        errorMessage := none, errorStack := none })

/-! ### Labelled-count extraction (`parsePhpunitOutput`) -/

/-- `(\d+)\s+label` matching at the head of `l`. -/
def countAt (label : List Char) (l : List Char) : Option Nat :=
  let ds := l.takeWhile isDigitChar
  if ds.isEmpty then none
  else
    let rest := l.drop ds.length
    let ws := rest.takeWhile isJsWs
    if ws.isEmpty then none
    else if isPrefixCI label (rest.drop ws.length) then some (digitsToNat ds) else none

/-- Leftmost match of a positional matcher. -/
def scanFor {α : Type} (f : List Char → Option α) : List Char → Option α
  | [] => f []
  | c :: cs =>
    match f (c :: cs) with
    | some a => some a
    | none => scanFor f cs

/-- `OK\s*\((\d+)\s+test` matching at the head. -/
def okCountAt (l : List Char) : Option Nat :=
  if isPrefixCI "OK".data l then
    let r1 := l.drop 2
    let r2 := r1.drop (r1.takeWhile isJsWs).length
    match r2 with
    | '(' :: r3 =>
      let ds := r3.takeWhile isDigitChar
      if ds.isEmpty then none
      else
        let r4 := r3.drop ds.length
        let ws2 := r4.takeWhile isJsWs
        if ws2.isEmpty then none
        else if isPrefixCI "test".data (r4.drop ws2.length) then some (digitsToNat ds)
        else none
    | _ => none
  else none

/-- `FAILURES!\s*Tests:\s*(\d+)` matching at the head. -/
def failuresTestsAt (l : List Char) : Option Nat :=
  if isPrefixCI "FAILURES!".data l then
    let r := l.drop 9
    let r2 := r.drop (r.takeWhile isJsWs).length
    if isPrefixCI "Tests:".data r2 then
      let r3 := r2.drop 6
      let ds := (r3.drop (r3.takeWhile isJsWs).length).takeWhile isDigitChar
      if ds.isEmpty then none else some (digitsToNat ds)
    else none
  else none

/-- `label\s*(\d+)` matching at the head (used for `Failures:\s*(\d+)`). -/
def labelCountAt (label : List Char) (l : List Char) : Option Nat :=
  if isPrefixCI label l then
    let r := l.drop label.length
    let ds := (r.drop (r.takeWhile isJsWs).length).takeWhile isDigitChar
    if ds.isEmpty then none else some (digitsToNat ds)
  else none

/-- `Time:\s*([\d.:]+)` matching at the head: the captured time text. -/
def timeAt (l : List Char) : Option (List Char) :=
  if isPrefixCI "Time:".data l then
    let r := l.drop 5
    let ds := (r.drop (r.takeWhile isJsWs).length).takeWhile
      (fun c => isDigitChar c || c = '.' || c = ':')
    if ds.isEmpty then none else some ds
  else none

/-- JavaScript `parseInt(s, 10)` on a `[\d.:]`-classed capture: the
leading digit run (none = NaN). -/
def jsParseInt (l : List Char) : Option Nat :=
  let ds := l.takeWhile isDigitChar
  if ds.isEmpty then none else some (digitsToNat ds)

/-- JavaScript `parseFloat` on a `[\d.:]`-classed capture: leading
digits, optionally a dot and more digits (none = NaN). -/
def jsParseFloat (l : List Char) : Option Rat :=
  let ds := l.takeWhile isDigitChar
  let rest := l.drop ds.length
  let fs :=
    match rest with
    | '.' :: r => r.takeWhile isDigitChar
    | _ => []
  if ds.isEmpty && fs.isEmpty then none
  else some ((digitsToNat (ds ++ fs) : Rat) / (10 : Rat) ^ fs.length)

/-- The `Time:` handling of `parsePhpunitOutput`: a `MM:SS` form is
converted to milliseconds; otherwise the value is taken as milliseconds
exactly when the output mentions `ms` and never `second(s)`. -/
def phpunitDuration (timeStr : List Char) (out : List Char) : Rat :=
  if timeStr.contains ':' then
    match timeStr.splitOn ':' with
    | [mm, ss] =>
      match jsParseInt mm, jsParseFloat ss with
      | some m, some s => ((m : Rat) * 60 + s) * 1000
      | _, _ => 0
    | _ => 0
  else
    match jsParseFloat timeStr with
    | none => 0
    | some v =>
      if containsCI "ms".data out && !containsCI "second".data out then v
      else v * 1000

/-- `PhpunitRunner.parsePhpunitOutput`: labelled-count extraction with
the `OK (n test…)` / `FAILURES! Tests: n` fallbacks, per-id result
records from `extractTestResults`, and the `Time:` duration. -/
def parsePhpunitOutput (stdout stderr : String) (testIds : List String) : TestRunResult :=
  let combined := stdout ++ stderr
  let out := combined.data
  let passed := (scanFor (countAt "passed".data) out).getD 0
  let failed := (scanFor (countAt "failed".data) out).getD 0
    + (scanFor (countAt "error".data) out).getD 0
  let skipped := (scanFor (countAt "skipped".data) out).getD 0
  let finalPassed :=
    match scanFor okCountAt out with
    | some n => if passed = 0 then n else passed
    | none => passed
  let finalFailed :=
    match scanFor failuresTestsAt out with
    | some _ =>
      if failed = 0 then
        match scanFor (labelCountAt "Failures:".data) out with
        | some k => k
        | none => failed
      else failed
    | none => failed
  let duration :=
    match scanFor timeAt out with
    | none => (0 : Rat)
    | some ts => phpunitDuration ts out
  { passed := (finalPassed : Rat)
    failed := (finalFailed : Rat)
    skipped := (skipped : Rat)
    duration := duration
    results := extractTestResults combined testIds }

/-! ## `PhpunitRunner.parseJunitXml`

The global regex
`/<testcase\s+([^>]+)>(.*?)<\/testcase>|<testcase\s+([^>]+)\/>/gs`
is hand-compiled: at each occurrence of `<testcase` the first
alternative captures the attribute text up to the first `>` and a lazy
body up to the first `</testcase>`; failing that, a self-closing tag is
recognised when the attribute text ends in `/`.  Attribute probes such
as `/name="([^"]+)"/` are leftmost literal searches. -/

/-- First case-sensitive occurrence of a literal. -/
def firstIdxStr (pat : List Char) : List Char → Option Nat
  | [] => if pat.isEmpty then some 0 else none
  | c :: cs =>
    if pat.isPrefixOf (c :: cs) then some 0 else (firstIdxStr pat cs).map (· + 1)

/-- Attribute capture `pat"([^"]+)"`-style: at each position, the
literal `pat`, then at least one non-quote character, then a quote. -/
def attrCaptureAt (pat : List Char) (l : List Char) : Option (List Char) :=
  if pat.isPrefixOf l then
    let rest := l.drop pat.length
    let cap := rest.takeWhile (fun c => !(c = '"'))
    if cap.isEmpty then none
    else
      match rest.drop cap.length with
      | '"' :: _ => some cap
      | _ => none
  else none

/-- Leftmost attribute capture in an attribute text. -/
def attrCapture (pat : List Char) (attrs : List Char) : Option (List Char) :=
  scanFor (attrCaptureAt pat) attrs

/-- One `<testcase` match attempt at a position whose text starts with
`<testcase`: returns the attribute capture, the body capture (empty for
a self-closing tag) and the remaining text after the match. -/
def tcMatchAt (l : List Char) : Option (List Char × List Char × List Char) :=
  let afterTag := l.drop 9
  let wsLen := (afterTag.takeWhile isJsWs).length
  let span := afterTag.takeWhile (fun c => !(c = '>'))
  if wsLen = 0 ∨ span.length < 2 then none
  else if span.length = afterTag.length then none
  else
    let afterGt := afterTag.drop (span.length + 1)
    match firstIdxStr "</testcase>".data afterGt with
    | some b =>
      some (span.drop (min wsLen (span.length - 1)), afterGt.take b, afterGt.drop (b + 11))
    | none =>
      if span.getLast? = some '/' ∧ 3 ≤ span.length then
        some ((span.take (span.length - 1)).drop (min wsLen (span.length - 2)),
          [], afterGt)
      else none

/-- The global scan loop (`while ((match = testCaseRegex.exec(xml)))`),
driven by fuel bounded by the text length (each step consumes at least
one character). -/
def scanTestcasesAux : Nat → List Char → List (List Char × List Char)
  | 0, _ => []
  | _ + 1, [] => []
  | fuel + 1, c :: cs =>
    if "<testcase".data.isPrefixOf (c :: cs) then
      match tcMatchAt (c :: cs) with
      | some (attrs, body, rest) => (attrs, body) :: scanTestcasesAux fuel rest
      | none => scanTestcasesAux fuel cs
    else scanTestcasesAux fuel cs

/-- All `<testcase>` matches of the xml text, in order. -/
def scanTestcases (l : List Char) : List (List Char × List Char) :=
  scanTestcasesAux l.length l

/-- `parseFloat(parseFloat(t).toFixed(2)) * 1000` idealised over `Rat`:
round to two decimal places, then scale to milliseconds. -/
def xmlTimeToMs (t : List Char) : Rat :=
  match jsParseFloat t with
  | none => 0
  | some q => (Rat.floor (q * 100 + 1/2) : Rat) / 100 * 1000

/-- `/<testsuite[^>]+time="([^"]+)"/`: at an occurrence of
`<testsuite`, the greedy `[^>]+` backtracks to the last `time="` inside
the run of non-`>` characters. -/
def suiteTimeAt (l : List Char) : Option (List Char) :=
  if "<testsuite".data.isPrefixOf l then
    let rest := l.drop 10
    let run := rest.takeWhile (fun c => !(c = '>'))
    let tryAt : Nat → Option (List Char) := fun i =>
      if 1 ≤ i ∧ i + 6 ≤ run.length ∧ "time=\"".data.isPrefixOf (rest.drop i) then
        let cap := (rest.drop (i + 6)).takeWhile (fun c => !(c = '"'))
        if cap.isEmpty then none
        else
          match (rest.drop (i + 6)).drop cap.length with
          | '"' :: _ => some cap
          | _ => none
      else none
    (List.range run.length).reverse.firstM tryAt
  else none

/-- The per-`testcase` record accumulation of `parseJunitXml`. -/
structure JunitAcc where
  passed : Nat
  failed : Nat
  skipped : Nat
  totalDuration : Rat
  results : List TestExecutionResult

/-- Process one `<testcase>` match: skipped entirely without `name` and
`file` attributes; otherwise reconstruct the id against the requested
ids and classify from the body. -/
def junitStep (testIds : List String) (acc : JunitAcc) (m : List Char × List Char) :
    JunitAcc :=
  let attrs := m.1
  let body := m.2
  match attrCapture "name=\"".data attrs, attrCapture "file=\"".data attrs with
  | some nameCap, some fileCap =>
    let name := String.mk nameCap
    let time :=
      match attrCapture "time=\"".data attrs with
      | some t => xmlTimeToMs t
      | none => 0
    let className :=
      match attrCapture "class=\"".data attrs with
      | some c => ((String.mk c).data.splitOn '\\').getLastD []
      | none => []
    let fileId := generateFileId (String.mk fileCap)
    let matchedId :=
      match testIds.find? (fun id =>
        containsStr name.data id.data
          && (containsStr fileId.data id.data
            || (!className.isEmpty && containsStr className id.data))) with
      | some id => id
      | none => fileId ++ "::" ++ String.mk className ++ "::" ++ name
    if containsStr "<failure".data body || containsStr "<error".data body then
      let msg :=
        match attrCapture "message=\"".data body with
        | some m => String.mk m
        | none => "Test failed"
      { acc with failed := acc.failed + 1
                 totalDuration := acc.totalDuration + time
                 results := acc.results ++
                   [{ testId := matchedId, status := .Failed, duration := time
                      errorMessage := some msg, errorStack := some msg }] }
    else if containsStr "<skipped".data body then
      { acc with skipped := acc.skipped + 1
                 totalDuration := acc.totalDuration + time
                 results := acc.results ++
                   [{ testId := matchedId, status := .Skipped, duration := time
                      errorMessage := none, errorStack := none }] }
    else
      { acc with passed := acc.passed + 1
                 totalDuration := acc.totalDuration + time
                 results := acc.results ++
                   [{ testId := matchedId, status := .Passed, duration := time
                      errorMessage := none, errorStack := none }] }
  | _, _ => acc

/-- `PhpunitRunner.parseJunitXml`. -/
def parseJunitXml (xml : String) (_stdOutput : String) (testIds : List String) :
    TestRunResult :=
  let acc := (scanTestcases xml.data).foldl (junitStep testIds)
    ⟨0, 0, 0, 0, []⟩
  let suiteDuration :=
    match scanFor suiteTimeAt xml.data with
    | some t => xmlTimeToMs t
    | none => acc.totalDuration
  { passed := (acc.passed : Rat)
    failed := (acc.failed : Rat)
    skipped := (acc.skipped : Rat)
    duration := suiteDuration
    results := acc.results }

/-! ## `PhpunitRunner`: filters, arguments, executable, run loop -/

/-- `PHPUNIT_BIN_PATHS.vendor` from `src/config/phpunit-config.ts`. -/
def PHPUNIT_BIN_PATHS_vendor : String := "vendor/bin/phpunit"

/-- `PHPUNIT_BIN_PATHS.fallback`. -/
def PHPUNIT_BIN_PATHS_fallback : String := "phpunit"

/-- `PhpunitRunner.findPhpunitExecutable`; the `fs.existsSync` probe is
a parameter. -/
def findPhpunitExecutable (fsExists : String → Bool) (workspacePath : String) : Option String :=
  if fsExists (pathJoin workspacePath PHPUNIT_BIN_PATHS_vendor) then
    some (pathJoin workspacePath PHPUNIT_BIN_PATHS_vendor)
  else if fsExists (pathJoin workspacePath "artisan") then some "php"
  else some PHPUNIT_BIN_PATHS_fallback

/-- `PhpunitRunner.buildTestFilters`. -/
def buildTestFilters (testIds : List String) : List String :=
  match testIds with
  | [] => []
  | _ =>
    (testIds.map (fun id =>
      let parts := jsSplitSep id
      if 3 ≤ parts.length then
        (parts.getD (parts.length - 2) "") ++ "::" ++ (parts.getD (parts.length - 1) "")
      else if parts.length = 2 then parts.getD 1 ""
      else "")).filter (fun p => p.length > 0)

/-- `PhpunitRunner.buildPhpunitArgs`. -/
def buildPhpunitArgs (testFilters : List String) (executablePath : String)
    (tempXmlPath : String) : List String :=
  let args := ["--testdox", "--log-junit", "\"" ++ tempXmlPath ++ "\""]
  let args := if executablePath = "php" then ["artisan", "test"] ++ args else args
  if testFilters.length > 0 then
    args ++ ["--filter", "\"" ++ String.intercalate "|" testFilters ++ "\""]
  else args

/-- The promise body of `PhpunitRunner.runTests` after the spawn: stdout
and stderr accumulate separately; on close the JUnit report is parsed
when the temp file exists (`xmlFile`), falling back to console parsing;
error and cancellation resolve with the empty result (the temp-file
cleanup is a file-system side effect outside this model). -/
def phpunitRunLoop (testIds : List String) (xmlFile : Option String) :
    List ProcEvent → String → String → Option (TestRunResult × Bool)
  | [], _, _ => none
  | .out s :: rest, accOut, accErr => phpunitRunLoop testIds xmlFile rest (accOut ++ s) accErr
  | .errOut s :: rest, accOut, accErr => phpunitRunLoop testIds xmlFile rest accOut (accErr ++ s)
  | .closed :: _, accOut, accErr =>
    match xmlFile with
    | some xml => some (parseJunitXml xml (accOut ++ accErr) testIds, false)
    | none => some (parsePhpunitOutput accOut accErr testIds, false)
  | .spawnError :: _, _, _ => some (createEmptyResult, false)
  | .cancelled :: _, _, _ => some (createEmptyResult, true)

/-- The body of `PhpunitRunner.runTests` after executable resolution:
the falsy-path guard, the pre-spawn `token.isCancellationRequested`
short-circuit, then the event loop. -/
def phpunitRunBody (p : String) (testIds : List String) (preCancelled : Bool)
    (xmlFile : Option String) (events : List ProcEvent) : Option (TestRunResult × Bool) :=
  if p == "" then some (createEmptyResult, false)
  else if preCancelled then some (createEmptyResult, true)
  else phpunitRunLoop testIds xmlFile events "" ""

/-- `PhpunitRunner.runTests`. -/
def phpunitRunTests (fsExists : String → Bool) (workspacePath : String)
    (testIds : List String) (preCancelled : Bool) (xmlFile : Option String)
    (events : List ProcEvent) : Option (TestRunResult × Bool) :=
  match findPhpunitExecutable fsExists workspacePath with
  | none => some (createEmptyResult, false)
  | some p => phpunitRunBody p testIds preCancelled xmlFile events

/-! ## The discovery data model and the two source parsers

`TestSuite`/`TestCase` from `src/types/index.ts` are folded into one
inductive (`children` holds either).  The line-based regex matchers of
`JestParser` and `PhpunitParser` are hand-compiled; the mutated
stack/class state of the TypeScript parsers becomes explicit frames. -/

/-- `TestLocation` from `src/types/index.ts`. -/
structure TestLocation where
  file : String
  line : Nat
  column : Nat
deriving DecidableEq, Repr

/-- A discovery-tree node: `TestSuite` or `TestCase`. -/
inductive TestNode where
  | suite (id : String) (name : String) (location : TestLocation)
      (children : List TestNode) (parentId : Option String)
  | tcase (id : String) (name : String) (fullName : String) (location : TestLocation)
      (parentId : Option String)
deriving Repr

/-- Identifier of a node. -/
def nodeId : TestNode → String
  | .suite i _ _ _ _ => i
  | .tcase i _ _ _ _ => i

/-- Display name of a node. -/
def nodeName : TestNode → String
  | .suite _ n _ _ _ => n
  | .tcase _ n _ _ _ => n

/-- `parentId` field of a node. -/
def nodeParentId : TestNode → Option String
  | .suite _ _ _ _ p => p
  | .tcase _ _ _ _ p => p

/-- Children of a node (a case is a leaf). -/
def nodeChildren : TestNode → List TestNode
  | .suite _ _ _ cs _ => cs
  | .tcase _ _ _ _ _ => []

mutual

/-- A node together with all of its descendants, in preorder. -/
def allNodes : TestNode → List TestNode
  | .suite i nm loc children pid => .suite i nm loc children pid :: allNodesList children
  | .tcase i nm fn loc pid => [.tcase i nm fn loc pid]

/-- `allNodes` over a forest. -/
def allNodesList : List TestNode → List TestNode
  | [] => []
  | n :: ns => allNodes n ++ allNodesList ns

end

/-- Node `path.basename`: the last `/`-separated segment. -/
def pathBasename (p : String) : String :=
  String.mk ((p.data.splitOn '/').getLastD [])

/-! ### The shared quoted-name matcher of `JestParser`

`\s*\(\s*(['"`])(.+?)\1` after a keyword: optional whitespace, an
opening parenthesis, optional whitespace, a quote character, a lazy
nonempty run of non-line-terminator characters, the same quote. -/

/-- The lazy `(.+?)\1` tail: after at least one character, the shortest
continuation ending at the quote. -/
def lazyToQuote (q : Char) : List Char → Option (List Char)
  | [] => none
  | c :: cs =>
    if c = q then some []
    else if isLineTerm c then none
    else (lazyToQuote q cs).map (c :: ·)

/-- `(['"`])(.+?)\1` at the head: the captured name. -/
def quotedName (l : List Char) : Option (List Char) :=
  match l with
  | q :: c :: cs =>
    if (q = '\'' ∨ q = '"' ∨ q = '`') ∧ !isLineTerm c then
      (lazyToQuote q cs).map (c :: ·)
    else none
  | _ => none

/-- `\s*\(\s*` then the quoted name. -/
def afterKw (l : List Char) : Option (List Char) :=
  let r1 := l.drop (l.takeWhile isJsWs).length
  match r1 with
  | '(' :: r2 => quotedName (r2.drop (r2.takeWhile isJsWs).length)
  | _ => none

/-- `JestParser.matchDescribe` at one position:
`(?:describe|describe\.only|describe\.skip)` then the argument head. -/
def describeAt (l : List Char) : Option (List Char) :=
  if "describe".data.isPrefixOf l then
    match afterKw (l.drop 8) with
    | some nm => some nm
    | none =>
      if ".only".data.isPrefixOf (l.drop 8) then afterKw (l.drop 13)
      else if ".skip".data.isPrefixOf (l.drop 8) then afterKw (l.drop 13)
      else none
  else none

/-- The `it`-stem alternatives of `JestParser.matchTest`. -/
def itAt (l : List Char) : Option (List Char) :=
  if "it".data.isPrefixOf l then
    match afterKw (l.drop 2) with
    | some nm => some nm
    | none =>
      if ".only".data.isPrefixOf (l.drop 2) then afterKw (l.drop 7)
      else if ".skip".data.isPrefixOf (l.drop 2) then afterKw (l.drop 7)
      else none
  else none

/-- `JestParser.matchTest` at one position:
`(?:test|it|test\.only|test\.skip|it\.only|it\.skip)` then the argument
head (the `test`- and `it`-stems cannot both apply at one position). -/
def testAt (l : List Char) : Option (List Char) :=
  if "test".data.isPrefixOf l then
    match afterKw (l.drop 4) with
    | some nm => some nm
    | none =>
      if ".only".data.isPrefixOf (l.drop 4) then afterKw (l.drop 9)
      else if ".skip".data.isPrefixOf (l.drop 4) then afterKw (l.drop 9)
      else itAt l
  else itAt l

/-- Leftmost match of a positional matcher, with its index. -/
def scanForIdx {α : Type} (f : List Char → Option α) : List Char → Option (α × Nat)
  | [] => (f []).map (fun a => (a, 0))
  | c :: cs =>
    match f (c :: cs) with
    | some a => some (a, 0)
    | none => (scanForIdx f cs).map (fun p => (p.1, p.2 + 1))

/-- `JestParser.matchDescribe`: name and 1-based column. -/
def matchDescribe (line : List Char) : Option (String × Nat) :=
  (scanForIdx describeAt line).map (fun p => (String.mk p.1, p.2 + 1))

/-- `JestParser.matchTest`: name and 1-based column. -/
def matchTest (line : List Char) : Option (String × Nat) :=
  (scanForIdx testAt line).map (fun p => (String.mk p.1, p.2 + 1))

/-- Count of `/\x7d\s*\)/g` matches in a line (non-overlapping,
left to right), driven by fuel bounded by the line length. -/
def countCloseBracesAux : Nat → List Char → Nat
  | 0, _ => 0
  | _ + 1, [] => 0
  | fuel + 1, '\x7d' :: cs =>
    let ws := cs.takeWhile isJsWs
    match cs.drop ws.length with
    | ')' :: rest => countCloseBracesAux fuel rest + 1
    | _ => countCloseBracesAux fuel cs
  | fuel + 1, _ :: cs => countCloseBracesAux fuel cs

/-- The closing-brace count of `JestParser.parseBlocks`. -/
def countCloseBraces (l : List Char) : Nat :=
  countCloseBracesAux l.length l

/-- Block kinds of the Jest parser. -/
inductive BlockType where
  | describeBlock
  | testBlock
deriving DecidableEq, Repr

/-- `ParsedBlock` of `JestParser`. -/
structure ParsedBlock where
  btype : BlockType
  name : String
  line : Nat
  column : Nat
  children : List ParsedBlock
deriving Repr

/-- An open `describe` still on the stack. -/
structure BlockFrame where
  name : String
  line : Nat
  column : Nat
  children : List ParsedBlock

/-- Close a stack frame into a finished `describe` block. -/
def closeFrame (fr : BlockFrame) : ParsedBlock :=
  ⟨.describeBlock, fr.name, fr.line, fr.column, fr.children⟩

/-- One `stack.pop()`: the closed block joins its parent frame (it was
attached there on open in the mutating original) or the root list. -/
def popFrame1 (root : List ParsedBlock) (fr : BlockFrame) (parents : List BlockFrame) :
    List ParsedBlock × List BlockFrame :=
  match parents with
  | [] => (root ++ [closeFrame fr], [])
  | p :: rest => (root, { p with children := p.children ++ [closeFrame fr] } :: rest)

/-- The closing-brace pop loop (stops on an empty stack). -/
def popN : Nat → List ParsedBlock × List BlockFrame → List ParsedBlock × List BlockFrame
  | 0, st => st
  | _ + 1, (root, []) => (root, [])
  | n + 1, (root, fr :: parents) => popN n (popFrame1 root fr parents)

/-- The pop loop of the final unwind, carrying the innermost open frame. -/
def unwindFrom (root : List ParsedBlock) (fr : BlockFrame) :
    List BlockFrame → List ParsedBlock
  | [] => root ++ [closeFrame fr]
  | p :: rest => unwindFrom root { p with children := p.children ++ [closeFrame fr] } rest

/-- Unwind the stack at the end of input (blocks left open were already
attached on open in the mutating original). -/
def unwindAll (root : List ParsedBlock) : List BlockFrame → List ParsedBlock
  | [] => root
  | fr :: parents => unwindFrom root fr parents

/-- One line of `JestParser.parseBlocks`: a `describe` match opens a
frame, a `test`/`it` match attaches a leaf to the innermost frame (or
the root), then the closing braces pop. -/
def jestProcessLine (st : List ParsedBlock × List BlockFrame) (line : List Char)
    (lineNumber : Nat) : List ParsedBlock × List BlockFrame :=
  let st1 :=
    match matchDescribe line with
    | some nc => (st.1, (⟨nc.1, lineNumber, nc.2, []⟩ : BlockFrame) :: st.2)
    | none => st
  let st2 :=
    match matchTest line with
    | some nc =>
      match st1.2 with
      | [] => (st1.1 ++ [⟨.testBlock, nc.1, lineNumber, nc.2, []⟩], [])
      | top :: rest =>
        (st1.1, { top with children :=
          top.children ++ [⟨.testBlock, nc.1, lineNumber, nc.2, []⟩] } :: rest)
    | none => st1
  popN (countCloseBraces line) st2

/-- `JestParser.parseBlocks`. -/
def parseBlocks (lines : List String) : List ParsedBlock :=
  let st := lines.enum.foldl (fun st li => jestProcessLine st li.2.data (li.1 + 1)) ([], [])
  unwindAll st.1 st.2

mutual

/-- `JestParser.convertBlocksToSuites`. -/
def convertBlocksToSuites : List ParsedBlock → String → String → List TestNode
  | [], _, _ => []
  | b :: bs, filePath, parentId =>
    convertBlock b filePath parentId :: convertBlocksToSuites bs filePath parentId

/-- The body of the `map` callback inside
`JestParser.convertBlocksToSuites`, converting one block. -/
def convertBlock : ParsedBlock → String → String → TestNode
  | ⟨t, name, line, col, children⟩, filePath, parentId =>
    let id := parentId ++ "::" ++ name
    match t with
    | .describeBlock =>
      .suite id name ⟨filePath, line, col⟩
        (convertBlocksToSuites children filePath id) (some parentId)
    | .testBlock => .tcase id name name ⟨filePath, line, col⟩ (some parentId)

end

/-- JavaScript `content.split('\n')` at the character level: split on
every newline, keeping empty segments. -/
def splitLinesChars : List Char → List (List Char)
  | [] => [[]]
  | c :: cs =>
    if c = '\n' then [] :: splitLinesChars cs
    else (c :: (splitLinesChars cs).headD []) :: (splitLinesChars cs).tail

/-- JavaScript `content.split('\n')`. -/
def splitLines (content : String) : List String :=
  (splitLinesChars content.data).map (fun l => ⟨l⟩)

/-- `JestParser.parseTestFile`. -/
def jestParseTestFile (filePath : String) (content : String) : Option TestNode :=
  let blocks := parseBlocks (splitLines content)
  if blocks.isEmpty then none
  else
    some (.suite (generateFileId filePath) (pathBasename filePath) ⟨filePath, 1, 1⟩
      (convertBlocksToSuites blocks filePath (generateFileId filePath)) none)

/-! ### `PhpunitParser` -/

/-- JavaScript regex `\w`. -/
def isWordChar (c : Char) : Bool :=
  c.isAlphanum || c = '_'

/-- The optional `(?:abstract\s+|final\s+)?` modifier. -/
def modDrop (l : List Char) : List Char :=
  if "abstract".data.isPrefixOf l then
    let r := l.drop 8
    let ws := r.takeWhile isJsWs
    if ws.isEmpty then l else r.drop ws.length
  else if "final".data.isPrefixOf l then
    let r := l.drop 5
    let ws := r.takeWhile isJsWs
    if ws.isEmpty then l else r.drop ws.length
  else l

/-- `PhpunitParser.matchTestClass` at one position:
`class\s+(\w+)\s+extends\s+(?:TestCase|Tests\\TestCase|PHPUnit\\Framework\\TestCase)`. -/
def classAt (l : List Char) : Option (List Char) :=
  let r0 := modDrop l
  if "class".data.isPrefixOf r0 then
    let r1 := r0.drop 5
    let ws1 := r1.takeWhile isJsWs
    if ws1.isEmpty then none
    else
      let r2 := r1.drop ws1.length
      let nm := r2.takeWhile isWordChar
      if nm.isEmpty then none
      else
        let r3 := r2.drop nm.length
        let ws2 := r3.takeWhile isJsWs
        if ws2.isEmpty then none
        else
          let r4 := r3.drop ws2.length
          if "extends".data.isPrefixOf r4 then
            let r5 := r4.drop 7
            let ws3 := r5.takeWhile isJsWs
            if ws3.isEmpty then none
            else
              let r6 := r5.drop ws3.length
              if "TestCase".data.isPrefixOf r6 ∨ "Tests\\TestCase".data.isPrefixOf r6
                  ∨ "PHPUnit\\Framework\\TestCase".data.isPrefixOf r6 then
                some nm
              else none
          else none
  else none

/-- `PhpunitParser.matchTestClass`. -/
def matchTestClass (line : List Char) : Option (String × Nat) :=
  (scanForIdx classAt line).map (fun p => (String.mk p.1, p.2 + 1))

/-- The optional `(?:public\s+)?` modifier. -/
def pubDrop (l : List Char) : List Char :=
  if "public".data.isPrefixOf l then
    let r := l.drop 6
    let ws := r.takeWhile isJsWs
    if ws.isEmpty then l else r.drop ws.length
  else l

/-- `function\s+(\w+)\s*\(` at one position; with `requireTest` the
captured name must begin with `test` (the
`(test\w*|test_\w+)` capture of the standard pattern). -/
def funcNameAt (requireTest : Bool) (l : List Char) : Option (List Char) :=
  let r0 := pubDrop l
  if "function".data.isPrefixOf r0 then
    let r1 := r0.drop 8
    let ws1 := r1.takeWhile isJsWs
    if ws1.isEmpty then none
    else
      let r2 := r1.drop ws1.length
      let nm := r2.takeWhile isWordChar
      if nm.isEmpty then none
      else if requireTest ∧ ¬("test".data.isPrefixOf nm) then none
      else
        let r3 := r2.drop nm.length
        match r3.drop (r3.takeWhile isJsWs).length with
        | '(' :: _ => some nm
        | _ => none
  else none

/-- `PhpunitParser.matchTestMethod`. -/
def matchTestMethod (line : List Char) (prevAnnot : Bool) : Option (String × Nat) :=
  match scanForIdx (funcNameAt true) line with
  | some p => some (String.mk p.1, p.2 + 1)
  | none =>
    if prevAnnot then (scanForIdx (funcNameAt false) line).map (fun p => (String.mk p.1, p.2 + 1))
    else none

/-- `/@test\b/.test(line)`. -/
def hasAtTest : List Char → Bool
  | [] => false
  | c :: cs =>
    ("@test".data.isPrefixOf (c :: cs)
        && (match (c :: cs).drop 5 with
            | [] => true
            | d :: _ => !isWordChar d))
      || hasAtTest cs

/-- Count of occurrences of one character. -/
def countChar (c : Char) (l : List Char) : Nat :=
  (l.filter (fun x => x = c)).length

/-- `ParsedMethod` of `PhpunitParser`. -/
structure ParsedMethod where
  name : String
  line : Nat
  column : Nat
deriving DecidableEq, Repr

/-- `ParsedClass` of `PhpunitParser`. -/
structure ParsedClass where
  name : String
  line : Nat
  column : Nat
  methods : List ParsedMethod
deriving DecidableEq, Repr

/-- The per-line state of `PhpunitParser.parseClasses` (`finished`
holds classes whose aliased entry can no longer change). -/
structure PhpParseState where
  finished : List ParsedClass
  current : Option ParsedClass
  inClass : Bool
  braceDepth : Int
  prevAnnot : Bool

/-- One line of `PhpunitParser.parseClasses`. -/
def phpProcessLine (st : PhpParseState) (line : List Char) (lineNumber : Nat) :
    PhpParseState :=
  let st : PhpParseState :=
    match matchTestClass line with
    | some nc =>
      { finished := st.finished ++ st.current.toList
        current := some ⟨nc.1, lineNumber, nc.2, []⟩
        inClass := true
        braceDepth := 0
        prevAnnot := st.prevAnnot }
    | none => st
  if st.inClass then
    match st.current with
    | some cur =>
      let isAnnot := hasAtTest line
      let curPrev : ParsedClass × Bool :=
        if !isAnnot then
          match matchTestMethod line st.prevAnnot with
          | some nc =>
            ({ cur with methods := cur.methods ++ [⟨nc.1, lineNumber, nc.2⟩] }, false)
          | none => (cur, st.prevAnnot)
        else (cur, st.prevAnnot)
      let depth := st.braceDepth + (countChar '\x7b' line : Int) - (countChar '\x7d' line : Int)
      let closed := depth ≤ 0 ∧ line.contains '\x7d'
      let newPrev := if isAnnot then true else curPrev.2
      if closed then
        { finished := st.finished ++ [curPrev.1], current := none, inClass := false
          braceDepth := depth, prevAnnot := newPrev }
      else
        { finished := st.finished, current := some curPrev.1, inClass := true
          braceDepth := depth, prevAnnot := newPrev }
    | none => st
  else st

/-- `PhpunitParser.parseClasses`. -/
def parseClasses (lines : List String) : List ParsedClass :=
  let st := lines.enum.foldl (fun st li => phpProcessLine st li.2.data (li.1 + 1))
    ⟨[], none, false, 0, false⟩
  st.finished ++ st.current.toList

/-- `PhpunitParser.convertClassesToSuites`. -/
def convertClassesToSuites (classes : List ParsedClass) (filePath : String)
    (parentId : String) : List TestNode :=
  classes.map (fun testClass =>
    let classId := parentId ++ "::" ++ testClass.name
    .suite classId testClass.name ⟨filePath, testClass.line, testClass.column⟩
      (testClass.methods.map (fun m =>
        .tcase (classId ++ "::" ++ m.name) m.name (testClass.name ++ "::" ++ m.name)
          ⟨filePath, m.line, m.column⟩ (some classId)))
      (some parentId))

/-- `PhpunitParser.parseTestFile`. -/
def phpunitParseTestFile (filePath : String) (content : String) : Option TestNode :=
  let classes := parseClasses (splitLines content)
  if classes.isEmpty then none
  else
    some (.suite (generateFileId filePath) (pathBasename filePath) ⟨filePath, 1, 1⟩
      (convertClassesToSuites classes filePath (generateFileId filePath)) none)

/-! ## Membership in an item forest, and concrete witness trees -/

mutual

/-- An item together with all of its descendants. -/
def allTItems : TItem → List TItem
  | .node i cs => .node i cs :: allTItemsList cs

/-- `allTItems` over a forest. -/
def allTItemsList : List TItem → List TItem
  | [] => []
  | t :: ts => allTItems t ++ allTItemsList ts

end

/-- The leaf `"f::Suite::case"` of the spec's reconciliation example. -/
def caseNode : TItem := .node "f::Suite::case" []

/-- Its suite `"f::Suite"`. -/
def suiteNode : TItem := .node "f::Suite" [caseNode]

/-- Its file root `"f"`. -/
def fileNode : TItem := .node "f" [suiteNode]

/-- A tree that contains the leaf `"f::Suite::case"` but not its prefix
ancestors: the root is an unrelated `"g"`. -/
def strayTree : TItem := .node "g" [caseNode]

/-! ## Event-trace helpers for the failure-policy claim -/

/-- Whether an event is a mere data event (stdout/stderr chunk). -/
def isDataEvent : ProcEvent → Bool
  | .out _ => true
  | .errOut _ => true
  | _ => false

/-- Stdout accumulated over a run of data events. -/
def outConcat : List ProcEvent → String
  | [] => ""
  | .out s :: rest => s ++ outConcat rest
  | _ :: rest => outConcat rest

/-- Stderr accumulated over a run of data events. -/
def errConcat : List ProcEvent → String
  | [] => ""
  | .errOut s :: rest => s ++ errConcat rest
  | _ :: rest => errConcat rest

/-- The three ways `parseJestOutput` can fail to parse its stdout: no
brace-delimited slice, a JSON syntax error, or a shape on which the
result loop throws. -/
def jestOutputUnparseable (stdout : String) : Bool :=
  match extractJsonSlice stdout with
  | none => true
  | some s =>
    match jsonParse s with
    | none => true
    | some v => (jestDynBody v).isNone

/-- The discovery tree of the Jest witness parse. -/
def c5JestRoot : TestNode :=
  .suite "a_b.test.ts" "b.test.ts" ⟨"a/b.test.ts", 1, 1⟩
    [.suite "a_b.test.ts::M" "M" ⟨"a/b.test.ts", 1, 1⟩
      [.tcase "a_b.test.ts::M::adds" "adds" "adds" ⟨"a/b.test.ts", 2, 1⟩
        (some "a_b.test.ts::M")]
      (some "a_b.test.ts")] none

/-- The discovery tree of the PHPUnit witness parse. -/
def c5PhpRoot : TestNode :=
  .suite "a_FooTest.php" "FooTest.php" ⟨"a/FooTest.php", 1, 1⟩
    [.suite "a_FooTest.php::FooTest" "FooTest" ⟨"a/FooTest.php", 1, 1⟩
      [.tcase "a_FooTest.php::FooTest::test_adds" "test_adds" "FooTest::test_adds"
        ⟨"a/FooTest.php", 2, 1⟩ (some "a_FooTest.php::FooTest")]
      (some "a_FooTest.php")] none

/-! ## Theorems -/

/-! Round-trip lemmas for the codec. -/

theorem splitSepChars_ne_nil (l : List Char) : splitSepChars l ≠ [] := by
  induction l using splitSepChars.induct with
  | case1 => simp [splitSepChars]
  | case2 c => simp [splitSepChars]
  | case3 c c2 cs h ih => simp [splitSepChars, h]
  | case4 c c2 cs h ih =>
    rw [splitSepChars, if_neg h]
    simp

theorem splitSepChars_of_not_containsSep (l : List Char)
    (h : containsSep l = false) : splitSepChars l = [l] := by
  induction l using splitSepChars.induct with
  | case1 => simp [splitSepChars]
  | case2 c => simp [splitSepChars]
  | case3 c c2 cs hsep ih =>
    exfalso
    simp [containsSep, hsep.1, hsep.2] at h
  | case4 c c2 cs hsep ih =>
    rw [splitSepChars, if_neg hsep]
    have h2 : containsSep (c2 :: cs) = false := by
      simp [containsSep] at h
      simpa using h.2
    rw [ih h2]
    simp

theorem splitSepChars_cons_sep (t : List Char) :
    splitSepChars (':' :: ':' :: t) = [] :: splitSepChars t := by
  simp [splitSepChars]

theorem splitSepChars_cons_ne (c c2 : Char) (cs : List Char) (h : ¬(c = ':' ∧ c2 = ':')) :
    splitSepChars (c :: c2 :: cs)
      = (c :: (splitSepChars (c2 :: cs)).headD []) :: (splitSepChars (c2 :: cs)).tail := by
  rw [splitSepChars, if_neg h]

theorem splitSepChars_append_sep (p t : List Char)
    (h1 : containsSep p = false) (h2 : endsColon p = false) :
    splitSepChars (p ++ ':' :: ':' :: t) = p :: splitSepChars t := by
  induction p using splitSepChars.induct with
  | case1 =>
    simpa using splitSepChars_cons_sep t
  | case2 c =>
    have hc : ¬(c = ':' ∧ (':' : Char) = ':') := by
      intro hh
      simp [endsColon, hh.1] at h2
    simp only [List.cons_append, List.nil_append]
    rw [splitSepChars_cons_ne c ':' (':' :: t) hc, splitSepChars_cons_sep t]
    simp
  | case3 c c2 cs hsep ih =>
    exfalso
    simp [containsSep, hsep.1, hsep.2] at h1
  | case4 c c2 cs hsep ih =>
    have h1' : containsSep (c2 :: cs) = false := by
      simp [containsSep] at h1
      simpa using h1.2
    have h2' : endsColon (c2 :: cs) = false := by
      simpa [endsColon] using h2
    simp only [List.cons_append]
    rw [splitSepChars_cons_ne c c2 (cs ++ ':' :: ':' :: t) hsep]
    rw [show c2 :: (cs ++ ':' :: ':' :: t) = (c2 :: cs) ++ ':' :: ':' :: t from rfl]
    rw [ih h1' h2']
    simp

theorem splitSepChars_joinSepChars (parts : List (List Char))
    (hne : parts ≠ [])
    (h1 : ∀ p ∈ parts, containsSep p = false)
    (h2 : ∀ p ∈ parts.dropLast, endsColon p = false) :
    splitSepChars (joinSepChars parts) = parts := by
  induction parts with
  | nil => exact absurd rfl hne
  | cons p rest ih =>
    cases rest with
    | nil =>
      rw [joinSepChars]
      exact splitSepChars_of_not_containsSep p (h1 p (by simp))
    | cons q rest' =>
      rw [joinSepChars]
      rw [splitSepChars_append_sep p (joinSepChars (q :: rest'))
        (h1 p (by simp)) (h2 p (by simp [List.dropLast_cons₂]))]
      rw [ih (by simp) (fun x hx => h1 x (by simp [hx]))
        (fun x hx => h2 x (by rw [List.dropLast_cons₂]; exact List.mem_cons_of_mem _ hx))]

theorem string_mk_data (s : String) : String.mk s.data = s := by
  cases s
  rfl

theorem jsSplitSep_jsJoinSep (parts : List String)
    (hne : parts ≠ [])
    (h1 : ∀ p ∈ parts, containsSep p.data = false)
    (h2 : ∀ p ∈ parts.dropLast, endsColon p.data = false) :
    jsSplitSep (jsJoinSep parts) = parts := by
  unfold jsSplitSep jsJoinSep
  rw [show (String.mk (joinSepChars (parts.map String.data))).data
        = joinSepChars (parts.map String.data) from rfl]
  rw [splitSepChars_joinSepChars (parts.map String.data)
    (by simpa using hne)
    (by intro p hp
        rcases List.mem_map.mp hp with ⟨x, hx, rfl⟩
        exact h1 x hx)
    (by intro p hp
        rw [← List.map_dropLast] at hp
        rcases List.mem_map.mp hp with ⟨x, hx, rfl⟩
        exact h2 x hx)]
  rw [List.map_map]
  have hid : ((fun l => String.mk l) ∘ String.data) = id := by
    funext s
    exact string_mk_data s
  rw [hid, List.map_id]

theorem findLoop_of_chainSelects (full : String) (parts taken : List String)
    (items : List TItem) (target : TItem) (result : Option TItem)
    (h : chainSelects full parts taken items target) :
    findLoop full parts taken items result = some target := by
  induction parts generalizing taken items result with
  | nil => exact absurd h (by simp [chainSelects])
  | cons p rest ih =>
    cases rest with
    | nil =>
      rw [chainSelects] at h
      rw [findLoop, h]
      by_cases hc : target.children.isEmpty
      · simp [hc]
      · simp [hc, findLoop]
    | cons q rest' =>
      rw [chainSelects] at h
      rcases hm : lastMatch (lcStr (jsJoinSep (taken ++ [p]))) (lcStr full) items with _ | c
      · rw [hm] at h
        exact absurd h (by simp)
      · rw [hm] at h
        rw [findLoop, hm]
        have hne : c.children.isEmpty = false := by
          cases hcc : c.children with
          | nil => exact absurd hcc h.1
          | cons a b => simp
        simp only [hne, if_false, Bool.false_eq_true]
        exact ih (taken ++ [p]) c.children (some c) h.2

theorem foldl_fileLoopStep_passedItems (rootItems : List TItem)
    (rs : List TestExecutionResult) (acc : FileLoopAcc) :
    (rs.foldl (fileLoopStep rootItems) acc).passedItems
      = acc.passedItems ++ rs.filterMap (passedHit rootItems) := by
  induction rs generalizing acc with
  | nil => simp
  | cons r rest ih =>
    rw [List.foldl_cons, ih]
    rcases hf : findTestItem rootItems r.testId with _ | item
    · simp [fileLoopStep, hf, List.filterMap_cons, passedHit]
    · cases hst : r.status <;>
        simp [fileLoopStep, hf, List.filterMap_cons, passedHit, hst]

theorem processFile_passedItems (rootItems : List TItem) (rs : List TestExecutionResult) :
    (processFile rootItems rs).passedItems = rs.filterMap (passedHit rootItems) := by
  rw [processFile, foldl_fileLoopStep_passedItems]
  rfl

theorem passedHit_eq_some (rootItems : List TItem) (r : TestExecutionResult) (x : TItem) :
    passedHit rootItems r = some x
      ↔ (findTestItem rootItems r.testId = some x ∧ r.status = .Passed) := by
  rw [passedHit]
  rcases hf : findTestItem rootItems r.testId with _ | item
  · simp
  · by_cases hst : r.status = .Passed
    · simp [hst]
    · simp [hst]

theorem mem_runTestsEffects_passedItems (rootItems : List TItem) (request : RunRequest)
    (result : TestRunResult) (x : TItem) :
    x ∈ (runTestsEffects rootItems request result).passedItems
      ↔ ∃ r, r ∈ (List.map Prod.snd (processedGroups rootItems request result)).flatten
          ∧ r.status = .Passed ∧ findTestItem rootItems r.testId = some x := by
  show x ∈ (((processedGroups rootItems request result).map
      (fun g => processFile rootItems g.2)).map FileLoopAcc.passedItems).flatten ↔ _
  rw [List.map_map]
  constructor
  · intro hx
    rcases List.mem_flatten.mp hx with ⟨l, hl, hxl⟩
    rcases List.mem_map.mp hl with ⟨g, hg, rfl⟩
    simp only [Function.comp_apply, processFile_passedItems] at hxl
    rcases List.mem_filterMap.mp hxl with ⟨r, hr, hhit⟩
    rcases (passedHit_eq_some rootItems r x).mp hhit with ⟨hf, hst⟩
    exact ⟨r, List.mem_flatten.mpr ⟨g.2, List.mem_map.mpr ⟨g, hg, rfl⟩, hr⟩, hst, hf⟩
  · rintro ⟨r, hr, hst, hf⟩
    rcases List.mem_flatten.mp hr with ⟨l, hl, hrl⟩
    rcases List.mem_map.mp hl with ⟨g, hg, rfl⟩
    refine List.mem_flatten.mpr ⟨(processFile rootItems g.2).passedItems,
      List.mem_map.mpr ⟨g, hg, rfl⟩, ?_⟩
    rw [processFile_passedItems]
    exact List.mem_filterMap.mpr ⟨r, hrl, (passedHit_eq_some rootItems r x).mpr ⟨hf, hst⟩⟩

/-! ## Auxiliary lemmas for the claim theorems -/

theorem containsSep_of_no_colon (l : List Char) (h : ∀ c ∈ l, c ≠ ':') :
    containsSep l = false := by
  induction l using containsSep.induct with
  | case1 => rfl
  | case2 c => rfl
  | case3 c c2 cs ih =>
    rw [containsSep]
    have hc : c ≠ ':' := h c (by simp)
    rw [ih (fun x hx => h x (List.mem_cons_of_mem _ hx))]
    simp [hc]

theorem endsColon_of_no_colon (l : List Char) (h : ∀ c ∈ l, c ≠ ':') :
    endsColon l = false := by
  induction l using endsColon.induct with
  | case1 => rfl
  | case2 c => simpa [endsColon] using h c (by simp)
  | case3 c c2 cs ih =>
    rw [endsColon]
    exact ih (fun x hx => h x (List.mem_cons_of_mem _ hx))

theorem generateFileId_no_colon (filePath : String) :
    ∀ c ∈ (generateFileId filePath).data, c ≠ ':' := by
  intro c hc
  rcases List.mem_map.mp hc with ⟨x, _, rfl⟩
  unfold sanitizeFileChar
  by_cases hx : x = '\\' ∨ x = '/' ∨ x = ':'
  · simp [hx]
  · simp only [if_neg hx]
    intro hcol
    exact hx (Or.inr (Or.inr hcol))

theorem pathJoin_ne_empty (a b : String) (hb : b ≠ "") : pathJoin a b ≠ "" := by
  unfold pathJoin
  by_cases ha : a = ""
  · simpa [ha] using hb
  · simp only [if_neg ha]
    intro h
    have hd := congrArg String.data h
    simp [String.data_append] at hd

/-! ## Claimed properties -/

/-- Claim C1 (corrected): `JestRunner.mapJestStatus` sends `passed` to
Passed, `failed` to Failed, `pending` and `skipped` to Skipped, and maps
every other status string to `Pending` (the switch default), not to
Skipped as claimed. -/
theorem C1_statusMapping :
    mapJestStatus "passed" = TestStatus.Passed
      ∧ mapJestStatus "failed" = TestStatus.Failed
      ∧ mapJestStatus "pending" = TestStatus.Skipped
      ∧ mapJestStatus "skipped" = TestStatus.Skipped
      ∧ ∀ s : String, s ≠ "passed" → s ≠ "failed" → s ≠ "pending" → s ≠ "skipped" →
          mapJestStatus s = TestStatus.Pending := by
  refine ⟨rfl, rfl, rfl, rfl, ?_⟩
  intro s h1 h2 h3 h4
  simp [mapJestStatus, h1, h2, h3, h4]

/-- Claim C1 counterexample: the unrecognized status string
`"unknownStatus"` is not mapped to Skipped. -/
theorem C1_counterexample : ¬ (mapJestStatus "unknownStatus" = TestStatus.Skipped) := by
  decide

/-- Claim C1 witness: a concrete unrecognized status maps to Pending. -/
theorem C1_statusMapping_witness : mapJestStatus "mysteryStatus" = TestStatus.Pending :=
  C1_statusMapping.2.2.2.2 "mysteryStatus" (by decide) (by decide) (by decide) (by decide)

/-- Claim C2 (corrected): whenever the level-by-level `forEach` scan of
`TestExecutionManager.findTestItem` selects a chain of nodes matching
the successive `"::"`-prefixes of the result identifier
case-insensitively — as the hierarchy invariant provides for a
discovery-built tree containing the node — the lookup resolves the
identifier to the chain's final node. -/
theorem C2_findTestItem (resultId : String) (rootItems : List TItem) (target : TItem)
    (h : chainSelects resultId (jsSplitSep resultId) [] rootItems target) :
    findTestItem rootItems resultId = some target :=
  findLoop_of_chainSelects resultId (jsSplitSep resultId) [] rootItems target none h

/-- Claim C2 counterexample: a tree containing the node
`"f::Suite::case"` under an unrelated root `"g"` does not resolve
`"F::SUITE::CASE"` at all, refuting the claim for arbitrary trees. -/
theorem C2_counterexample :
    caseNode ∈ allTItemsList [strayTree]
      ∧ findTestItem [strayTree] "F::SUITE::CASE" = none
      ∧ findTestItem [strayTree] "F::SUITE::CASE" ≠ some caseNode := by
  refine ⟨?_, rfl, ?_⟩
  · simp [allTItems, allTItemsList, strayTree, caseNode]
  · have h : findTestItem [strayTree] "F::SUITE::CASE" = none := rfl
    rw [h]
    simp

/-- Claim C2 witness: the spec's example tree
`f / f::Suite / f::Suite::case` resolves the case-varied result
identifier `"F::SUITE::CASE"` to the node `"f::Suite::case"`. -/
theorem C2_findTestItem_witness :
    findTestItem [fileNode] "F::SUITE::CASE" = some caseNode := by
  apply C2_findTestItem
  exact ⟨by simp [fileNode, TItem.children],
    by simp [suiteNode, TItem.children], rfl⟩

/-- Claim C4 (corrected): splitting the `"::"`-joined identifier built
by `JestRunner.buildTestId` recovers the file token and the names
provided no name contains `"::"` and no ancestor name ends in `':'`
(a name ending in `':'` merges with the following separator, which the
counterexample exhibits; the file token itself is sanitised and cannot
contain `':'`). -/
theorem C4_roundTrip (filePath : String) (ancestorTitles : List String) (title : String)
    (h1 : ∀ p ∈ ancestorTitles ++ [title], containsSep p.data = false)
    (h2 : ∀ p ∈ ancestorTitles, endsColon p.data = false) :
    jsSplitSep (buildTestId filePath ancestorTitles title)
      = generateFileId filePath :: (ancestorTitles ++ [title]) := by
  unfold buildTestId
  apply jsSplitSep_jsJoinSep
  · simp
  · intro p hp
    rcases List.mem_cons.mp hp with rfl | hp'
    · exact containsSep_of_no_colon _ (generateFileId_no_colon filePath)
    · exact h1 p hp'
  · intro p hp
    have hsh : generateFileId filePath :: (ancestorTitles ++ [title])
        = (generateFileId filePath :: ancestorTitles) ++ [title] := by simp
    rw [hsh, List.dropLast_concat] at hp
    rcases List.mem_cons.mp hp with rfl | hp'
    · exact endsColon_of_no_colon _ (generateFileId_no_colon filePath)
    · exact h2 p hp'

/-- Claim C4 counterexample: with names `["a:", "b"]` — none containing
`"::"` — the identifier `"f::a:::b"` splits as `["f", "a", ":b"]`, not
back to the originals. -/
theorem C4_counterexample :
    (∀ p ∈ ["a:", "b"], containsSep p.data = false)
      ∧ jsSplitSep (buildTestId "f" ["a:"] "b") ≠ "f" :: ["a:", "b"]
      ∧ jsSplitSep (buildTestId "f" ["a:"] "b") = ["f", "a", ":b"] := by
  refine ⟨by decide, by decide, by decide⟩

/-- Claim C4 witness: a concrete round trip. -/
theorem C4_roundTrip_witness :
    jsSplitSep (buildTestId "a/b.ts" ["Suite"] "case") = ["a_b.ts", "Suite", "case"] :=
  (C4_roundTrip "a/b.ts" ["Suite"] "case" (by decide) (by decide)).trans (by decide)

/-- Claim C8 (confirmed): the name-pattern projection of
`JestRunner.buildTestPatterns` yields the empty string on a file-only
identifier, the empty string never reaches the CLI pattern list (so
`buildJestArgs` emits no `--testNamePattern` when there are no
patterns), and `fileToken::A::b` projects to `"A b"`. -/
theorem C8_namePattern :
    (∀ id : String, (jsSplitSep id).length = 1 → toNamePattern id = "")
      ∧ (∀ ids : List String, "" ∉ buildTestPatterns ids)
      ∧ toNamePattern "fileToken::A::b" = "A b"
      ∧ buildTestPatterns ["fileToken::A::b"] = ["A b"]
      ∧ buildJestArgs [] = ["--json", "--testLocationInResults"] := by
  refine ⟨?_, ?_, by decide, by decide, rfl⟩
  · intro id h
    simp [toNamePattern, h]
  · intro ids hmem
    unfold buildTestPatterns at hmem
    match ids, hmem with
    | x :: xs, hmem =>
      have := (List.mem_filter.mp hmem).2
      simp at this

/-- Claim C8 witness: a concrete file-only identifier projects to the
empty pattern. -/
theorem C8_namePattern_witness : toNamePattern "fileOnlyToken" = "" :=
  C8_namePattern.1 "fileOnlyToken" (by decide)

theorem findJestExecutable_isSome (stat : String → Bool) (ws : String) :
    (findJestExecutable stat ws).isSome = true := by
  unfold findJestExecutable
  by_cases h1 : stat (pathJoin ws JEST_BIN_PATHS_windows) <;>
    by_cases h2 : stat (pathJoin ws JEST_BIN_PATHS_unix) <;> simp [h1, h2]

theorem jestExecutableMissing_eq_false (stat : String → Bool) (ws : String) :
    jestExecutableMissing stat ws = false := by
  unfold jestExecutableMissing findJestExecutable
  by_cases h1 : stat (pathJoin ws JEST_BIN_PATHS_windows)
  · have hne : pathJoin ws JEST_BIN_PATHS_windows ≠ "" :=
      pathJoin_ne_empty ws JEST_BIN_PATHS_windows (by decide)
    simp [h1, hne]
  · by_cases h2 : stat (pathJoin ws JEST_BIN_PATHS_unix)
    · have hne : pathJoin ws JEST_BIN_PATHS_unix ≠ "" :=
        pathJoin_ne_empty ws JEST_BIN_PATHS_unix (by decide)
      simp [h1, h2, hne]
    · simp [h1, h2, JEST_BIN_PATHS_fallback]

/-- Claim C10 (confirmed): `JestRunner.findJestExecutable` always
resolves to a non-undefined, non-empty command (falling back to
`npx jest`), so the `'Jest executable not found'` branch of `runTests`
is unreachable. -/
theorem C10_jestExecutableFound :
    ∀ (stat : String → Bool) (workspacePath : String),
      (findJestExecutable stat workspacePath).isSome = true
        ∧ jestExecutableMissing stat workspacePath = false :=
  fun stat ws => ⟨findJestExecutable_isSome stat ws, jestExecutableMissing_eq_false stat ws⟩

theorem string_append_empty (s : String) : s ++ "" = s := by
  cases s with
  | mk l =>
    show String.mk (l ++ []) = String.mk l
    rw [List.append_nil]

theorem string_empty_append (s : String) : "" ++ s = s := by
  cases s with
  | mk l =>
    show String.mk ([] ++ l) = String.mk l
    rw [List.nil_append]

theorem string_append_assoc (a b c : String) : a ++ b ++ c = a ++ (b ++ c) := by
  cases a with
  | mk x =>
    cases b with
    | mk y =>
      cases c with
      | mk z =>
        show String.mk (x ++ y ++ z) = String.mk (x ++ (y ++ z))
        rw [List.append_assoc]

theorem jestRunLoop_data_prefix (tids : List String) (pre evs : List ProcEvent) (acc : String)
    (h : ∀ e ∈ pre, isDataEvent e = true) :
    jestRunLoop tids (pre ++ evs) acc = jestRunLoop tids evs (acc ++ outConcat pre) := by
  induction pre generalizing acc with
  | nil => rw [show outConcat [] = "" from rfl, string_append_empty, List.nil_append]
  | cons e rest ih =>
    cases e with
    | out s =>
      rw [List.cons_append,
        show jestRunLoop tids (ProcEvent.out s :: (rest ++ evs)) acc
          = jestRunLoop tids (rest ++ evs) (acc ++ s) from rfl,
        ih (acc ++ s) (fun x hx => h x (List.mem_cons_of_mem _ hx)),
        show outConcat (ProcEvent.out s :: rest) = s ++ outConcat rest from rfl,
        string_append_assoc]
    | errOut s =>
      rw [List.cons_append,
        show jestRunLoop tids (ProcEvent.errOut s :: (rest ++ evs)) acc
          = jestRunLoop tids (rest ++ evs) acc from rfl,
        ih acc (fun x hx => h x (List.mem_cons_of_mem _ hx)),
        show outConcat (ProcEvent.errOut s :: rest) = outConcat rest from rfl]
    | closed => exact absurd (h ProcEvent.closed (by simp)) (by decide)
    | spawnError => exact absurd (h ProcEvent.spawnError (by simp)) (by decide)
    | cancelled => exact absurd (h ProcEvent.cancelled (by simp)) (by decide)

theorem phpunitRunLoop_data_prefix (tids : List String) (xml : Option String)
    (pre evs : List ProcEvent) (a b : String)
    (h : ∀ e ∈ pre, isDataEvent e = true) :
    phpunitRunLoop tids xml (pre ++ evs) a b
      = phpunitRunLoop tids xml evs (a ++ outConcat pre) (b ++ errConcat pre) := by
  induction pre generalizing a b with
  | nil =>
    rw [show outConcat [] = "" from rfl, show errConcat [] = "" from rfl,
      string_append_empty, string_append_empty, List.nil_append]
  | cons e rest ih =>
    cases e with
    | out s =>
      rw [List.cons_append,
        show phpunitRunLoop tids xml (ProcEvent.out s :: (rest ++ evs)) a b
          = phpunitRunLoop tids xml (rest ++ evs) (a ++ s) b from rfl,
        ih (a ++ s) b (fun x hx => h x (List.mem_cons_of_mem _ hx)),
        show outConcat (ProcEvent.out s :: rest) = s ++ outConcat rest from rfl,
        show errConcat (ProcEvent.out s :: rest) = errConcat rest from rfl,
        string_append_assoc]
    | errOut s =>
      rw [List.cons_append,
        show phpunitRunLoop tids xml (ProcEvent.errOut s :: (rest ++ evs)) a b
          = phpunitRunLoop tids xml (rest ++ evs) a (b ++ s) from rfl,
        ih a (b ++ s) (fun x hx => h x (List.mem_cons_of_mem _ hx)),
        show outConcat (ProcEvent.errOut s :: rest) = outConcat rest from rfl,
        show errConcat (ProcEvent.errOut s :: rest) = s ++ errConcat rest from rfl,
        string_append_assoc]
    | closed => exact absurd (h ProcEvent.closed (by simp)) (by decide)
    | spawnError => exact absurd (h ProcEvent.spawnError (by simp)) (by decide)
    | cancelled => exact absurd (h ProcEvent.cancelled (by simp)) (by decide)

theorem parseJestOutput_of_unparseable (stdout : String) (tids : List String)
    (h : jestOutputUnparseable stdout = true) :
    parseJestOutput stdout tids = createEmptyDynResult := by
  unfold jestOutputUnparseable at h
  unfold parseJestOutput
  rcases he : extractJsonSlice stdout with _ | s
  · rfl
  · rw [he] at h
    have h1 : (match jsonParse s with
        | none => true
        | some v => (jestDynBody v).isNone) = true := h
    show jestResultOfSlice s = createEmptyDynResult
    unfold jestResultOfSlice
    rcases hp : jsonParse s with _ | v
    · rfl
    · rw [hp] at h1
      have h2 : (jestDynBody v).isNone = true := h1
      rcases hi : jestDynBody v with _ | out
      · show (match jestDynBody v with
            | none => createEmptyDynResult
            | some out => out) = createEmptyDynResult
        rw [hi]
      · rw [hi] at h2
        simp at h2

theorem findPhpunitExecutable_found (f : String → Bool) (ws : String) :
    ∃ p, findPhpunitExecutable f ws = some p ∧ (p == "") = false := by
  unfold findPhpunitExecutable
  by_cases h1 : f (pathJoin ws PHPUNIT_BIN_PATHS_vendor)
  · have hne : pathJoin ws PHPUNIT_BIN_PATHS_vendor ≠ "" :=
      pathJoin_ne_empty ws PHPUNIT_BIN_PATHS_vendor (by decide)
    exact ⟨pathJoin ws PHPUNIT_BIN_PATHS_vendor, by simp [h1], by simpa using hne⟩
  · by_cases h2 : f (pathJoin ws "artisan")
    · exact ⟨"php", by simp [h1, h2], by decide⟩
    · exact ⟨PHPUNIT_BIN_PATHS_fallback, by simp [h1, h2], by decide⟩

theorem parsePhpunitOutput_results_length (so se : String) (tids : List String) :
    (parsePhpunitOutput so se tids).results.length = tids.length := by
  show (extractTestResults (so ++ se) tids).length = tids.length
  unfold extractTestResults
  rw [List.length_map]

theorem extractTestResults_duration_zero (o : String) (tids : List String) :
    ∀ r ∈ extractTestResults o tids, r.duration = 0 := by
  intro r hr
  rcases List.mem_map.mp hr with ⟨id, _, rfl⟩
  by_cases h1 : phpunitFailMatch o.data ((jsSplitSep id).getLast?.getD "").data
  · simp [h1]
  · by_cases h2 : (!phpunitPassMatch o.data ((jsSplitSep id).getLast?.getD "").data
        && containsStr "FAILURES".data o.data)
    · simp [h1, h2]
    · simp [h1, h2]

/-- Claim C3 (corrected): for both adapters, a spawn failure resolves
the run with the empty result, cancellation (also the pre-spawn
cancelled check) resolves with the empty result and a kill request, and
unparseable Jest output degrades to the empty result; the PHPUnit
console fallback however resolves with one zero-duration result per
requested id — not an empty results sequence. -/
theorem C3_runFailurePolicy :
    (∀ (stat : String → Bool) (ws : String) (tids : List String) (pre rest : List ProcEvent),
        (∀ e ∈ pre, isDataEvent e = true) →
        jestRunTests stat ws tids (pre ++ .spawnError :: rest)
          = some (createEmptyDynResult, false))
  ∧ (∀ (stat : String → Bool) (ws : String) (tids : List String) (pre rest : List ProcEvent),
        (∀ e ∈ pre, isDataEvent e = true) →
        jestRunTests stat ws tids (pre ++ .cancelled :: rest)
          = some (createEmptyDynResult, true))
  ∧ (∀ (stat : String → Bool) (ws : String) (tids : List String) (pre rest : List ProcEvent),
        (∀ e ∈ pre, isDataEvent e = true) →
        jestOutputUnparseable (outConcat pre) = true →
        jestRunTests stat ws tids (pre ++ .closed :: rest)
          = some (createEmptyDynResult, false))
  ∧ (∀ (f : String → Bool) (ws : String) (tids : List String) (xml : Option String)
        (pre rest : List ProcEvent),
        (∀ e ∈ pre, isDataEvent e = true) →
        phpunitRunTests f ws tids false xml (pre ++ .spawnError :: rest)
          = some (createEmptyResult, false))
  ∧ (∀ (f : String → Bool) (ws : String) (tids : List String) (xml : Option String)
        (pre rest : List ProcEvent),
        (∀ e ∈ pre, isDataEvent e = true) →
        phpunitRunTests f ws tids false xml (pre ++ .cancelled :: rest)
          = some (createEmptyResult, true))
  ∧ (∀ (f : String → Bool) (ws : String) (tids : List String) (xml : Option String)
        (events : List ProcEvent),
        phpunitRunTests f ws tids true xml events = some (createEmptyResult, true))
  ∧ (∀ (f : String → Bool) (ws : String) (tids : List String) (pre rest : List ProcEvent),
        (∀ e ∈ pre, isDataEvent e = true) →
        ∃ res, phpunitRunTests f ws tids false none (pre ++ .closed :: rest) = some (res, false)
          ∧ res.results.length = tids.length
          ∧ ∀ r ∈ res.results, r.duration = 0) := by
  refine ⟨?_, ?_, ?_, ?_, ?_, ?_, ?_⟩
  · intro stat ws tids pre rest h
    unfold jestRunTests
    rw [jestExecutableMissing_eq_false, if_neg (by simp),
      jestRunLoop_data_prefix tids pre (.spawnError :: rest) "" h]
    rfl
  · intro stat ws tids pre rest h
    unfold jestRunTests
    rw [jestExecutableMissing_eq_false, if_neg (by simp),
      jestRunLoop_data_prefix tids pre (.cancelled :: rest) "" h]
    rfl
  · intro stat ws tids pre rest h hun
    unfold jestRunTests
    rw [jestExecutableMissing_eq_false, if_neg (by simp),
      jestRunLoop_data_prefix tids pre (.closed :: rest) "" h]
    show some (parseJestOutput ("" ++ outConcat pre) tids, false) = _
    rw [string_empty_append, parseJestOutput_of_unparseable _ _ hun]
  · intro f ws tids xml pre rest h
    unfold phpunitRunTests
    rcases findPhpunitExecutable_found f ws with ⟨p, hp, hpe⟩
    rw [hp]
    show phpunitRunBody p tids false xml (pre ++ .spawnError :: rest) = _
    unfold phpunitRunBody
    rw [if_neg (by simp [hpe]), if_neg (by simp),
      phpunitRunLoop_data_prefix tids xml pre (.spawnError :: rest) "" "" h]
    rfl
  · intro f ws tids xml pre rest h
    unfold phpunitRunTests
    rcases findPhpunitExecutable_found f ws with ⟨p, hp, hpe⟩
    rw [hp]
    show phpunitRunBody p tids false xml (pre ++ .cancelled :: rest) = _
    unfold phpunitRunBody
    rw [if_neg (by simp [hpe]), if_neg (by simp),
      phpunitRunLoop_data_prefix tids xml pre (.cancelled :: rest) "" "" h]
    rfl
  · intro f ws tids xml events
    unfold phpunitRunTests
    rcases findPhpunitExecutable_found f ws with ⟨p, hp, hpe⟩
    rw [hp]
    show phpunitRunBody p tids true xml events = _
    unfold phpunitRunBody
    rw [if_neg (by simp [hpe]), if_pos rfl]
  · intro f ws tids pre rest h
    unfold phpunitRunTests
    rcases findPhpunitExecutable_found f ws with ⟨p, hp, hpe⟩
    rw [hp]
    show ∃ res, phpunitRunBody p tids false none (pre ++ .closed :: rest) = some (res, false)
      ∧ res.results.length = tids.length ∧ ∀ r ∈ res.results, r.duration = 0
    unfold phpunitRunBody
    rw [if_neg (by simp [hpe]), if_neg (by simp),
      phpunitRunLoop_data_prefix tids none pre (.closed :: rest) "" "" h]
    refine ⟨parsePhpunitOutput ("" ++ outConcat pre) ("" ++ errConcat pre) tids, rfl, ?_, ?_⟩
    · exact parsePhpunitOutput_results_length _ _ tids
    · exact extractTestResults_duration_zero _ tids

/-- Claim C3 counterexample: the PHPUnit adapter, on a close event with
no JUnit report and console output that parses to nothing, resolves
with one result for the requested id — the results sequence is not
empty. -/
theorem C3_counterexample :
    ∃ res, phpunitRunTests (fun _ => false) "/w" ["f::C::m"] false none
        [.out "garbage text", .closed] = some (res, false)
      ∧ res.passed = 0 ∧ res.failed = 0 ∧ res.skipped = 0 ∧ res.duration = 0
      ∧ res.results ≠ [] := by
  refine ⟨parsePhpunitOutput ("" ++ "garbage text") ("" ++ "") ["f::C::m"], rfl, by decide,
    by decide, by decide, by decide, by decide⟩

/-- Claim C3 witness: concrete traces for every branch of the policy. -/
theorem C3_runFailurePolicy_witness :
    jestRunTests (fun _ => false) "/w" ["t"] [.out "x", .spawnError]
        = some (createEmptyDynResult, false)
      ∧ jestRunTests (fun _ => false) "/w" ["t"] [.out "x", .cancelled]
        = some (createEmptyDynResult, true)
      ∧ jestRunTests (fun _ => false) "/w" ["t"] [.out "no json", .closed]
        = some (createEmptyDynResult, false)
      ∧ phpunitRunTests (fun _ => false) "/w" ["f::C::m"] false none [.spawnError]
        = some (createEmptyResult, false)
      ∧ phpunitRunTests (fun _ => false) "/w" ["f::C::m"] false none [.cancelled]
        = some (createEmptyResult, true)
      ∧ phpunitRunTests (fun _ => false) "/w" ["f::C::m"] true none []
        = some (createEmptyResult, true)
      ∧ ∃ res, phpunitRunTests (fun _ => false) "/w" ["f::C::m"] false none [.out "zz", .closed]
          = some (res, false) ∧ res.results.length = 1 := by
  obtain ⟨h1, h2, h3, h4, h5, h6, h7⟩ := C3_runFailurePolicy
  refine ⟨h1 _ "/w" ["t"] [.out "x"] [] (by decide),
    h2 _ "/w" ["t"] [.out "x"] [] (by decide),
    h3 _ "/w" ["t"] [.out "no json"] [] (by decide) (by decide),
    h4 _ "/w" ["f::C::m"] none [] [] (by decide),
    h5 _ "/w" ["f::C::m"] none [] [] (by decide),
    h6 _ "/w" ["f::C::m"] none [],
    ?_⟩
  obtain ⟨res, hr, hl, _⟩ := h7 (fun _ => false) "/w" ["f::C::m"] [.out "zz"] [] (by decide)
  exact ⟨res, hr, by simpa using hl⟩

/-- Claim C9 (corrected): in the PHPUnit console fallback, a requested
id whose test name matches no fail marker/pattern is reported Passed
with duration 0 provided additionally the name matches a pass marker or
the output lacks `FAILURES` (an absent name with `FAILURES` present is
reported Failed, refuting the unconditional reading); every requested
id yields exactly one record, never Skipped. -/
theorem C9_consoleFallback :
    (∀ (output : String) (testIds : List String) (id : String), id ∈ testIds →
        phpunitFailMatch output.data ((jsSplitSep id).getLast?.getD "").data = false →
        (phpunitPassMatch output.data ((jsSplitSep id).getLast?.getD "").data = true
          ∨ containsStr "FAILURES".data output.data = false) →
        ({ testId := id, status := .Passed, duration := 0, errorMessage := none,
           errorStack := none } : TestExecutionResult) ∈ extractTestResults output testIds)
  ∧ (∀ (output : String) (testIds : List String),
        (extractTestResults output testIds).length = testIds.length)
  ∧ (∀ (output : String) (testIds : List String) (r : TestExecutionResult),
        r ∈ extractTestResults output testIds → r.status ≠ .Skipped ∧ r.duration = 0) := by
  refine ⟨?_, ?_, ?_⟩
  · intro output tids id hid hfail hpass
    apply List.mem_map.mpr
    refine ⟨id, hid, ?_⟩
    rw [if_neg (by simp [hfail])]
    rw [if_neg ?_]
    rcases hpass with hp | hf
    · simp [hp]
    · simp [hf]
  · intro output tids
    unfold extractTestResults
    rw [List.length_map]
  · intro output tids r hr
    rcases List.mem_map.mp hr with ⟨id, _, rfl⟩
    by_cases h1 : phpunitFailMatch output.data ((jsSplitSep id).getLast?.getD "").data
    · simp [h1]
    · by_cases h2 : (!phpunitPassMatch output.data ((jsSplitSep id).getLast?.getD "").data
          && containsStr "FAILURES".data output.data)
      · simp [h1, h2]
      · simp [h1, h2]

/-- Claim C9 counterexample: the requested test `zzz` is entirely
absent from the output `"FAILURES"`, matches no fail pattern, yet is
reported Failed, not Passed. -/
theorem C9_counterexample :
    (extractTestResults "FAILURES" ["f::C::zzz"]).map TestExecutionResult.status
        = [TestStatus.Failed]
      ∧ phpunitFailMatch "FAILURES".data "zzz".data = false
      ∧ containsCI "zzz".data "FAILURES".data = false := by
  refine ⟨by decide, by decide, by decide⟩

/-- Claim C9 witness: a concrete absent test with benign output is
reported Passed with duration 0. -/
theorem C9_consoleFallback_witness :
    ({ testId := "f::C::m", status := .Passed, duration := 0, errorMessage := none,
       errorStack := none } : TestExecutionResult)
      ∈ extractTestResults "all good here" ["f::C::m"] :=
  C9_consoleFallback.1 "all good here" ["f::C::m"] "f::C::m" (by decide) (by decide)
    (Or.inr (by decide))

/-! ## Lemmas for the parser identifier invariant (C5) -/

theorem convertBlocksToSuites_cons_describe (name : String) (line col : Nat)
    (children bs : List ParsedBlock) (fp pid : String) :
    convertBlocksToSuites (⟨.describeBlock, name, line, col, children⟩ :: bs) fp pid
      = TestNode.suite (pid ++ "::" ++ name) name ⟨fp, line, col⟩
          (convertBlocksToSuites children fp (pid ++ "::" ++ name)) (some pid)
        :: convertBlocksToSuites bs fp pid := rfl

theorem convertBlocksToSuites_cons_test (name : String) (line col : Nat)
    (children bs : List ParsedBlock) (fp pid : String) :
    convertBlocksToSuites (⟨.testBlock, name, line, col, children⟩ :: bs) fp pid
      = TestNode.tcase (pid ++ "::" ++ name) name name ⟨fp, line, col⟩ (some pid)
        :: convertBlocksToSuites bs fp pid := rfl

theorem convertBlocks_mem_rel (blocks : List ParsedBlock) (fp pid : String) :
    ∀ n ∈ convertBlocksToSuites blocks fp pid,
      nodeParentId n = some pid ∧ nodeId n = pid ++ "::" ++ nodeName n := by
  induction blocks with
  | nil => intro n hn; simp [convertBlocksToSuites] at hn
  | cons b bs ih =>
    intro n hn
    obtain ⟨t, name, line, col, children⟩ := b
    cases t with
    | describeBlock =>
      rw [convertBlocksToSuites_cons_describe] at hn
      rcases List.mem_cons.mp hn with rfl | hn'
      · exact ⟨rfl, rfl⟩
      · exact ih n hn'
    | testBlock =>
      rw [convertBlocksToSuites_cons_test] at hn
      rcases List.mem_cons.mp hn with rfl | hn'
      · exact ⟨rfl, rfl⟩
      · exact ih n hn'

theorem convertBlocks_allNodes_rel (blocks : List ParsedBlock) (fp pid : String) :
    ∀ n ∈ allNodesList (convertBlocksToSuites blocks fp pid),
      ∀ c ∈ nodeChildren n,
        nodeId c = nodeId n ++ "::" ++ nodeName c ∧ nodeParentId c = some (nodeId n) := by
  refine convertBlocksToSuites.induct
    (fun blocks fp pid => ∀ n ∈ allNodesList (convertBlocksToSuites blocks fp pid),
      ∀ c ∈ nodeChildren n,
        nodeId c = nodeId n ++ "::" ++ nodeName c ∧ nodeParentId c = some (nodeId n))
    (fun b fp pid => ∀ n ∈ allNodes (convertBlock b fp pid),
      ∀ c ∈ nodeChildren n,
        nodeId c = nodeId n ++ "::" ++ nodeName c ∧ nodeParentId c = some (nodeId n))
    ?_ ?_ ?_ ?_ blocks fp pid
  · intro name line col children fp pid id ih n hn c hc
    rw [show convertBlock ⟨.describeBlock, name, line, col, children⟩ fp pid
      = TestNode.suite (pid ++ "::" ++ name) name ⟨fp, line, col⟩
          (convertBlocksToSuites children fp (pid ++ "::" ++ name)) (some pid) from rfl] at hn
    simp only [allNodes, List.mem_cons] at hn
    rcases hn with rfl | hn'
    · have h := convertBlocks_mem_rel children fp (pid ++ "::" ++ name) c hc
      exact ⟨h.2, h.1⟩
    · exact ih n hn' c hc
  · intro name line col children fp pid n hn c hc
    rw [show convertBlock ⟨.testBlock, name, line, col, children⟩ fp pid
      = TestNode.tcase (pid ++ "::" ++ name) name name ⟨fp, line, col⟩ (some pid) from rfl] at hn
    simp only [allNodes, List.mem_singleton] at hn
    subst hn
    simp [nodeChildren] at hc
  · intro fp pid n hn
    simp [convertBlocksToSuites, allNodesList] at hn
  · intro b bs fp pid ih1 ih2 n hn c hc
    rw [show convertBlocksToSuites (b :: bs) fp pid
      = convertBlock b fp pid :: convertBlocksToSuites bs fp pid from rfl] at hn
    simp only [allNodesList, List.mem_append] at hn
    rcases hn with h1 | h2
    · exact ih1 n h1 c hc
    · exact ih2 n h2 c hc

theorem convertClasses_mem_rel (classes : List ParsedClass) (fp pid : String) :
    ∀ n ∈ convertClassesToSuites classes fp pid,
      nodeParentId n = some pid ∧ nodeId n = pid ++ "::" ++ nodeName n := by
  intro n hn
  rcases List.mem_map.mp hn with ⟨tc, _, rfl⟩
  exact ⟨rfl, rfl⟩

theorem mem_allNodesList_of_leaves (l : List TestNode) (hl : ∀ x ∈ l, nodeChildren x = []) :
    ∀ n ∈ allNodesList l, n ∈ l := by
  induction l with
  | nil => simp [allNodesList]
  | cons x xs ih =>
    intro n hn
    simp only [allNodesList, List.mem_append] at hn
    rcases hn with h1 | h2
    · cases x with
      | suite i nm loc cs pid =>
        have hcs : cs = [] := hl (TestNode.suite i nm loc cs pid) (by simp)
        subst hcs
        simp only [allNodes, allNodesList, List.mem_singleton] at h1
        simp [h1]
      | tcase i nm fn loc pid =>
        simp only [allNodes, List.mem_singleton] at h1
        simp [h1]
    · exact List.mem_cons_of_mem _ (ih (fun y hy => hl y (List.mem_cons_of_mem _ hy)) n h2)

theorem convertClasses_allNodes_rel (classes : List ParsedClass) (fp pid : String) :
    ∀ n ∈ allNodesList (convertClassesToSuites classes fp pid),
      ∀ c ∈ nodeChildren n,
        nodeId c = nodeId n ++ "::" ++ nodeName c ∧ nodeParentId c = some (nodeId n) := by
  induction classes with
  | nil => intro n hn; simp [convertClassesToSuites, allNodesList] at hn
  | cons tc tcs ih =>
    intro n hn c hc
    rw [show convertClassesToSuites (tc :: tcs) fp pid
      = (TestNode.suite (pid ++ "::" ++ tc.name) tc.name ⟨fp, tc.line, tc.column⟩
          (tc.methods.map (fun m =>
            TestNode.tcase ((pid ++ "::" ++ tc.name) ++ "::" ++ m.name) m.name
              (tc.name ++ "::" ++ m.name) ⟨fp, m.line, m.column⟩
              (some (pid ++ "::" ++ tc.name))))
          (some pid))
        :: convertClassesToSuites tcs fp pid from rfl] at hn
    simp only [allNodesList, allNodes, List.mem_append, List.mem_cons] at hn
    rcases hn with (rfl | hn1) | hn2
    · rcases List.mem_map.mp hc with ⟨m, _, rfl⟩
      exact ⟨rfl, rfl⟩
    · have hn1' := mem_allNodesList_of_leaves _
        (by intro x hx
            rcases List.mem_map.mp hx with ⟨m, _, rfl⟩
            rfl) n hn1
      rcases List.mem_map.mp hn1' with ⟨m, _, rfl⟩
      simp [nodeChildren] at hc
    · exact ih n hn2 c hc

/-- Claim C5 (confirmed): in the trees of `JestParser.parseTestFile`
and `PhpunitParser.parseTestFile`, every node's identifier is its
parent's identifier plus `"::"` plus its own name, the `parentId` field
is the parent's identifier, and the root's identifier is the bare file
token. -/
theorem C5_parserIdInvariant :
    (∀ (filePath content : String) (root : TestNode),
        jestParseTestFile filePath content = some root →
        nodeId root = generateFileId filePath ∧ nodeParentId root = none
          ∧ ∀ n ∈ allNodes root, ∀ c ∈ nodeChildren n,
              nodeId c = nodeId n ++ "::" ++ nodeName c
                ∧ nodeParentId c = some (nodeId n))
  ∧ (∀ (filePath content : String) (root : TestNode),
        phpunitParseTestFile filePath content = some root →
        nodeId root = generateFileId filePath ∧ nodeParentId root = none
          ∧ ∀ n ∈ allNodes root, ∀ c ∈ nodeChildren n,
              nodeId c = nodeId n ++ "::" ++ nodeName c
                ∧ nodeParentId c = some (nodeId n)) := by
  constructor
  · intro fp content root h
    unfold jestParseTestFile at h
    by_cases hb : (parseBlocks (splitLines content)).isEmpty
    · rw [if_pos hb] at h
      exact absurd h (by simp)
    · rw [if_neg hb] at h
      injection h with h'
      subst h'
      refine ⟨rfl, rfl, ?_⟩
      intro n hn c hc
      simp only [allNodes, List.mem_cons] at hn
      rcases hn with rfl | hn'
      · have h := convertBlocks_mem_rel (parseBlocks (splitLines content)) fp
          (generateFileId fp) c hc
        exact ⟨h.2, h.1⟩
      · exact convertBlocks_allNodes_rel _ fp (generateFileId fp) n hn' c hc
  · intro fp content root h
    unfold phpunitParseTestFile at h
    by_cases hb : (parseClasses (splitLines content)).isEmpty
    · rw [if_pos hb] at h
      exact absurd h (by simp)
    · rw [if_neg hb] at h
      injection h with h'
      subst h'
      refine ⟨rfl, rfl, ?_⟩
      intro n hn c hc
      simp only [allNodes, List.mem_cons] at hn
      rcases hn with rfl | hn'
      · have h := convertClasses_mem_rel (parseClasses (splitLines content)) fp
          (generateFileId fp) c hc
        exact ⟨h.2, h.1⟩
      · exact convertClasses_allNodes_rel _ fp (generateFileId fp) n hn' c hc

/-- Claim C5 witness: concrete two-level parses for both parsers. -/
theorem C5_parserIdInvariant_witness :
    (jestParseTestFile "a/b.test.ts" "describe(\"M\", x => (\nit(\"adds\", y => ("
        = some c5JestRoot
      ∧ nodeId c5JestRoot = generateFileId "a/b.test.ts"
      ∧ nodeParentId c5JestRoot = none)
    ∧ (phpunitParseTestFile "a/FooTest.php"
        "class FooTest extends TestCase \x7b\npublic function test_adds() \x7b \x7d\n\x7d"
        = some c5PhpRoot
      ∧ nodeId c5PhpRoot = generateFileId "a/FooTest.php"
      ∧ nodeParentId c5PhpRoot = none) := by
  obtain ⟨hjest, hphp⟩ := C5_parserIdInvariant
  have hje : jestParseTestFile "a/b.test.ts" "describe(\"M\", x => (\nit(\"adds\", y => ("
      = some c5JestRoot := by rfl
  have hpe : phpunitParseTestFile "a/FooTest.php"
      "class FooTest extends TestCase \x7b\npublic function test_adds() \x7b \x7d\n\x7d"
      = some c5PhpRoot := by rfl
  have hj := hjest "a/b.test.ts" "describe(\"M\", x => (\nit(\"adds\", y => (" c5JestRoot hje
  have hp := hphp "a/FooTest.php"
    "class FooTest extends TestCase \x7b\npublic function test_adds() \x7b \x7d\n\x7d"
    c5PhpRoot hpe
  exact ⟨⟨hje, hj.1, hj.2.1⟩, ⟨hpe, hp.1, hp.2.1⟩⟩

/-! ## Lemmas for the aggregation policy (C6) -/

theorem dedup_eq_singleton_of_all_eq (l : List String) (a : String) (hne : l ≠ [])
    (h : ∀ x ∈ l, x = a) : l.dedup = [a] := by
  induction l with
  | nil => exact absurd rfl hne
  | cons x xs ih =>
    have hx : x = a := h x (by simp)
    by_cases hnil : xs = []
    · subst hnil
      simp [hx]
    · have hmem : x ∈ xs := by
        cases xs with
        | nil => exact absurd rfl hnil
        | cons y ys =>
          have hy : y = a := h y (by simp)
          simp [hx, hy]
      rw [List.dedup_cons_of_mem hmem]
      exact ih hnil (fun z hz => h z (List.mem_cons_of_mem _ hz))

theorem eq_of_dedup_length_one (l : List String) (x y : String) (hx : x ∈ l) (hy : y ∈ l)
    (h : l.dedup.length = 1) : x = y := by
  rcases List.length_eq_one.mp h with ⟨a, ha⟩
  have hxa : x = a := by
    have hm := List.mem_dedup.mpr hx
    rw [ha] at hm
    simpa using hm
  have hya : y = a := by
    have hm := List.mem_dedup.mpr hy
    rw [ha] at hm
    simpa using hm
  rw [hxa, hya]

theorem zip_map_self {α β γ : Type} (l : List α) (h : α → β) (f : α × β → γ) :
    (l.zip (l.map h)).map f = l.map (fun a => f (a, h a)) := by
  induction l with
  | nil => rfl
  | cons x xs ih => simp [ih]

theorem runTestsEffects_fileStats (rootItems : List TItem) (request : RunRequest)
    (result : TestRunResult) :
    (runTestsEffects rootItems request result).fileStats
      = (processedGroups rootItems request result).map (fun g =>
          ({ filePath := g.1
             total := (processFile rootItems g.2).filePassed
               + (processFile rootItems g.2).fileFailed
               + (processFile rootItems g.2).fileSkipped
             passed := (processFile rootItems g.2).filePassed
             failed := (processFile rootItems g.2).fileFailed
             skipped := (processFile rootItems g.2).fileSkipped } : FileStats)) := by
  exact zip_map_self (processedGroups rootItems request result)
    (fun g => processFile rootItems g.2)
    (fun ga => ({ filePath := ga.1.1
                  total := ga.2.filePassed + ga.2.fileFailed + ga.2.fileSkipped
                  passed := ga.2.filePassed
                  failed := ga.2.fileFailed
                  skipped := ga.2.fileSkipped } : FileStats))

theorem mem_fileStats_of_mem_processed (rootItems : List TItem) (request : RunRequest)
    (result : TestRunResult) (g : String × List TestExecutionResult)
    (hg : g ∈ processedGroups rootItems request result) :
    ∃ fs ∈ (runTestsEffects rootItems request result).fileStats, fs.filePath = g.1 := by
  rw [runTestsEffects_fileStats]
  exact ⟨_, List.mem_map.mpr ⟨g, hg, rfl⟩, rfl⟩

theorem runTestsEffects_overall (rootItems : List TItem) (request : RunRequest)
    (result : TestRunResult) :
    (runTestsEffects rootItems request result).overallStats
      = (if isSingleTestSuiteRun request (collectTestItems rootItems request) then none
         else some (result.passed + result.failed + result.skipped, result.passed,
           result.failed, result.skipped, result.duration)) := rfl

/-- Claim C6 (corrected): with an explicit nonempty include list whose
collected leaves all carry one file token (case-insensitively), the
cross-file aggregate record is suppressed while the matching file
groups still get per-file records; leaves spanning two files emit both.
A run-all request (no include list) emits the aggregate even for a
single file, which the counterexample exhibits. -/
theorem C6_aggregationPolicy :
    (∀ (rootItems : List TItem) (request : RunRequest) (result : TestRunResult)
        (l : List TItem) (it0 : TItem) (tl : List TItem),
        request.includeItems = some l → l ≠ [] →
        collectTestItems rootItems request = it0 :: tl →
        (∀ it ∈ collectTestItems rootItems request,
          lcStr (extractFilePathFromTestId it.id)
            = lcStr (extractFilePathFromTestId it0.id)) →
        (runTestsEffects rootItems request result).overallStats = none
          ∧ ∀ g ∈ groupResultsByFile result.results,
              isMatchingFilePath g.1 (extractFilePathFromTestId it0.id) = true →
              ∃ fs ∈ (runTestsEffects rootItems request result).fileStats, fs.filePath = g.1)
  ∧ (∀ (rootItems : List TItem) (request : RunRequest) (result : TestRunResult)
        (it1 it2 : TItem),
        it1 ∈ collectTestItems rootItems request →
        it2 ∈ collectTestItems rootItems request →
        lcStr (extractFilePathFromTestId it1.id) ≠ lcStr (extractFilePathFromTestId it2.id) →
        (runTestsEffects rootItems request result).overallStats
            = some (result.passed + result.failed + result.skipped, result.passed,
                result.failed, result.skipped, result.duration)
          ∧ ∀ g ∈ groupResultsByFile result.results,
              ∃ fs ∈ (runTestsEffects rootItems request result).fileStats,
                fs.filePath = g.1) := by
  constructor
  · intro rootItems request result l it0 tl hinc hlne hcol hsame
    have hsingle : isSingleTestSuiteRun request (collectTestItems rootItems request) = true := by
      unfold isSingleTestSuiteRun
      rw [hinc]
      cases l with
      | nil => exact absurd rfl hlne
      | cons a as =>
        show (((collectTestItems rootItems request).map
          (fun it => lcStr (extractFilePathFromTestId it.id))).dedup.length == 1) = true
        rw [dedup_eq_singleton_of_all_eq _ (lcStr (extractFilePathFromTestId it0.id))
          (by rw [hcol]; simp)
          (by intro x hx
              rcases List.mem_map.mp hx with ⟨it, hit, rfl⟩
              exact hsame it hit)]
        rfl
    have hsingle' : isSingleTestSuiteRun request (it0 :: tl) = true := by
      rw [← hcol]
      exact hsingle
    refine ⟨by rw [runTestsEffects_overall, if_pos hsingle], ?_⟩
    intro g hg hmatch
    apply mem_fileStats_of_mem_processed
    unfold processedGroups
    apply List.mem_filter.mpr
    refine ⟨hg, ?_⟩
    simp only [hcol]
    rw [hsingle', if_pos rfl]
    rw [show getTargetFilePath (it0 :: tl) = some (extractFilePathFromTestId it0.id) from rfl]
    show (!(true && (!(extractFilePathFromTestId it0.id == "")
      && !(isMatchingFilePath g.1 (extractFilePathFromTestId it0.id))))) = true
    rw [hmatch]
    simp
  · intro rootItems request result it1 it2 h1 h2 hne
    have hsingle : isSingleTestSuiteRun request (collectTestItems rootItems request) = false := by
      unfold isSingleTestSuiteRun
      rcases hinc : request.includeItems with _ | l
      · rfl
      · cases l with
        | nil => rfl
        | cons a as =>
          show (((collectTestItems rootItems request).map
            (fun it => lcStr (extractFilePathFromTestId it.id))).dedup.length == 1) = false
          by_cases hlen : ((collectTestItems rootItems request).map
              (fun it => lcStr (extractFilePathFromTestId it.id))).dedup.length = 1
          · exact absurd (eq_of_dedup_length_one _ _ _
              (List.mem_map.mpr ⟨it1, h1, rfl⟩) (List.mem_map.mpr ⟨it2, h2, rfl⟩) hlen) hne
          · simp [hlen]
    refine ⟨by rw [runTestsEffects_overall, if_neg (by simp [hsingle])], ?_⟩
    intro g hg
    apply mem_fileStats_of_mem_processed
    unfold processedGroups
    apply List.mem_filter.mpr
    refine ⟨hg, by simp [hsingle]⟩

/-- Claim C6 counterexample: a run-all request (`include` absent) whose
only leaf lives in one file still emits the aggregate record. -/
theorem C6_counterexample :
    (∀ it1 ∈ collectTestItems [TItem.node "f_x.ts" [TItem.node "f_x.ts::a" []]]
        ⟨none, none⟩,
      ∀ it2 ∈ collectTestItems [TItem.node "f_x.ts" [TItem.node "f_x.ts::a" []]]
        ⟨none, none⟩,
        lcStr (extractFilePathFromTestId it1.id) = lcStr (extractFilePathFromTestId it2.id))
      ∧ (runTestsEffects [TItem.node "f_x.ts" [TItem.node "f_x.ts::a" []]] ⟨none, none⟩
          createEmptyResult).overallStats ≠ none := by
  constructor
  · intro it1 h1 it2 h2
    have hc : collectTestItems [TItem.node "f_x.ts" [TItem.node "f_x.ts::a" []]] ⟨none, none⟩
        = [TItem.node "f_x.ts::a" []] := rfl
    rw [hc] at h1 h2
    simp at h1 h2
    rw [h1, h2]
  · intro h
    have hsome : (runTestsEffects [TItem.node "f_x.ts" [TItem.node "f_x.ts::a" []]]
        ⟨none, none⟩ createEmptyResult).overallStats = some (0, 0, 0, 0, 0) := by
      rw [runTestsEffects_overall]
      simp [isSingleTestSuiteRun, createEmptyResult]
    rw [hsome] at h
    exact Option.noConfusion h

/-- Claim C6 witness: a concrete single-file include run suppresses the
aggregate, and a concrete two-file run emits it. -/
theorem C6_aggregationPolicy_witness :
    (runTestsEffects [TItem.node "f_x.ts" [TItem.node "f_x.ts::a" []]]
        ⟨some [TItem.node "f_x.ts" [TItem.node "f_x.ts::a" []]], none⟩
        createEmptyResult).overallStats = none
      ∧ (runTestsEffects [TItem.node "f_x.ts" [TItem.node "f_x.ts::a" []],
            TItem.node "g_y.ts" [TItem.node "g_y.ts::b" []]] ⟨none, none⟩
          createEmptyResult).overallStats = some (0, 0, 0, 0, 0) := by
  constructor
  · exact (C6_aggregationPolicy.1 [TItem.node "f_x.ts" [TItem.node "f_x.ts::a" []]]
      ⟨some [TItem.node "f_x.ts" [TItem.node "f_x.ts::a" []]], none⟩ createEmptyResult
      [TItem.node "f_x.ts" [TItem.node "f_x.ts::a" []]] (TItem.node "f_x.ts::a" []) []
      rfl (by simp) rfl
      (by intro it hit
          have hc : collectTestItems [TItem.node "f_x.ts" [TItem.node "f_x.ts::a" []]]
              ⟨some [TItem.node "f_x.ts" [TItem.node "f_x.ts::a" []]], none⟩
              = [TItem.node "f_x.ts::a" []] := rfl
          rw [hc] at hit
          simp at hit
          rw [hit])).1
  · have h := (C6_aggregationPolicy.2 [TItem.node "f_x.ts" [TItem.node "f_x.ts::a" []],
        TItem.node "g_y.ts" [TItem.node "g_y.ts::b" []]] ⟨none, none⟩ createEmptyResult
      (TItem.node "f_x.ts::a" []) (TItem.node "g_y.ts::b" [])
      (by have hc : collectTestItems [TItem.node "f_x.ts" [TItem.node "f_x.ts::a" []],
              TItem.node "g_y.ts" [TItem.node "g_y.ts::b" []]] ⟨none, none⟩
            = [TItem.node "f_x.ts::a" [], TItem.node "g_y.ts::b" []] := rfl
          rw [hc]
          simp)
      (by have hc : collectTestItems [TItem.node "f_x.ts" [TItem.node "f_x.ts::a" []],
              TItem.node "g_y.ts" [TItem.node "g_y.ts::b" []]] ⟨none, none⟩
            = [TItem.node "f_x.ts::a" [], TItem.node "g_y.ts::b" []] := rfl
          rw [hc]
          simp)
      (by decide)).1
    rw [h]
    simp [createEmptyResult]

/-- Claim C7 (confirmed): after a run, a clear is pending exactly when
some processed result resolved to a tree item with status Passed; the
set cleared when the timer fires is exactly the set of items resolved
Passed (never Failed or Skipped ones); and the pending state left by a
run is independent of any pending clear from an earlier run (the entry
of `runTests` cancels it). -/
theorem C7_passedClearPolicy :
    (∀ (s : ManagerState) (rootItems : List TItem) (request : RunRequest)
        (result : TestRunResult),
        ((runTestsStep s rootItems request result).1.clearResultsTimeout ≠ none
          ↔ ∃ r, r ∈ (List.map Prod.snd (processedGroups rootItems request result)).flatten
              ∧ r.status = .Passed ∧ (findTestItem rootItems r.testId).isSome = true))
  ∧ (∀ (s : ManagerState) (rootItems : List TItem) (request : RunRequest)
        (result : TestRunResult) (x : TItem),
        (x ∈ (timerFire (runTestsStep s rootItems request result).1).2
          ↔ ∃ r, r ∈ (List.map Prod.snd (processedGroups rootItems request result)).flatten
              ∧ r.status = .Passed ∧ findTestItem rootItems r.testId = some x))
  ∧ (∀ (s s' : ManagerState) (rootItems : List TItem) (request : RunRequest)
        (result : TestRunResult),
        (runTestsStep s rootItems request result).1
          = (runTestsStep s' rootItems request result).1) := by
  refine ⟨?_, ?_, fun _ _ _ _ _ => rfl⟩
  · intro s rootItems request result
    have hpend : (runTestsStep s rootItems request result).1.clearResultsTimeout
        = (if (runTestsEffects rootItems request result).passedItems.isEmpty then none
           else some (runTestsEffects rootItems request result).passedItems) := rfl
    rw [hpend]
    by_cases hP : (runTestsEffects rootItems request result).passedItems.isEmpty
    · rw [if_pos hP]
      constructor
      · intro h
        exact absurd rfl h
      · rintro ⟨r, hr, hst, hsome⟩
        rcases Option.isSome_iff_exists.mp hsome with ⟨x, hx⟩
        have hxmem := (mem_runTestsEffects_passedItems rootItems request result x).mpr
          ⟨r, hr, hst, hx⟩
        rw [List.isEmpty_iff.mp hP] at hxmem
        simp at hxmem
    · rw [if_neg hP]
      constructor
      · intro _
        have hne : (runTestsEffects rootItems request result).passedItems ≠ [] := by
          intro hnil
          exact hP (by rw [hnil]; rfl)
        rcases List.exists_mem_of_ne_nil _ hne with ⟨x, hx⟩
        rcases (mem_runTestsEffects_passedItems rootItems request result x).mp hx
          with ⟨r, hr, hst, hf⟩
        exact ⟨r, hr, hst, by rw [hf]; rfl⟩
      · intro _
        simp
  · intro s rootItems request result x
    by_cases hP : (runTestsEffects rootItems request result).passedItems.isEmpty
    · have ht : (timerFire (runTestsStep s rootItems request result).1).2 = [] := by
        show (timerFire ⟨if (runTestsEffects rootItems request result).passedItems.isEmpty
          then none else some (runTestsEffects rootItems request result).passedItems⟩).2 = []
        rw [if_pos hP]
        rfl
      rw [ht]
      constructor
      · intro h
        exact absurd h (by simp)
      · rintro ⟨r, hr, hst, hf⟩
        have hxmem := (mem_runTestsEffects_passedItems rootItems request result x).mpr
          ⟨r, hr, hst, hf⟩
        rw [List.isEmpty_iff.mp hP] at hxmem
        simp at hxmem
    · have ht : (timerFire (runTestsStep s rootItems request result).1).2
          = (runTestsEffects rootItems request result).passedItems := by
        show (timerFire ⟨if (runTestsEffects rootItems request result).passedItems.isEmpty
          then none else some (runTestsEffects rootItems request result).passedItems⟩).2 = _
        rw [if_neg hP]
        rfl
      rw [ht]
      exact mem_runTestsEffects_passedItems rootItems request result x

end Testr
